import Mathlib

/-!
# GoTCPTunnel: the HTTP frame detector, the byte forwarder and the idle pool

A shallow embedding of `tcpmsgexchanger/impbyhttp.go` and
`tcptunnelmanager/service.go`.

* A Go `string` / `[]byte` is a list of byte values (`Bytes`).
* Go `int64` arithmetic is arithmetic on `Int` followed by `wrap64`.
* A Go `map[string]T` is an association list with at most one entry per key
  (`set` removes the old entry, `delete` removes every entry of the key);
  the pool of the service may also be the nil map, on which an assignment
  panics.
* A function that can panic returns an `Option`, `none` being the panic.
* Sockets are modelled by the results their `Read` and `Write` calls give.
-/

namespace GoTCPTunnel

/-! ## Byte strings and the Go library functions the source calls -/

/-- A Go string or byte slice: the list of its byte values. -/
abbrev Bytes := List Nat

/-- The bytes of an ASCII string literal. -/
def ascii (s : String) : Bytes := s.toList.map Char.toNat

/-- Two's-complement wrap-around of a Go `int64` result. -/
def wrap64 (x : Int) : Int :=
  (x + 9223372036854775808) % 18446744073709551616 - 9223372036854775808

/-- Go `strings.HasPrefix s p`. -/
def hasPrefix : Bytes → Bytes → Bool
  | _, [] => true
  | [], _ :: _ => false
  | a :: s, b :: p => decide (a = b) && hasPrefix s p

/-- Offset of the first occurrence of `sep` in the string, if any. -/
def findIdx (sep : Bytes) : Bytes → Option Nat
  | [] => if sep = [] then some 0 else none
  | c :: cs =>
    if hasPrefix (c :: cs) sep then some 0
    else (findIdx sep cs).map (· + 1)

/-- Offset of the last occurrence of `sep` in the string, if any. -/
def findLastIdx (sep : Bytes) : Bytes → Option Nat
  | [] => if sep = [] then some 0 else none
  | c :: cs =>
    match findLastIdx sep cs with
    | some i => some (i + 1)
    | none => if hasPrefix (c :: cs) sep then some 0 else none

/-- Go `strings.Index s sep`: the first offset of `sep` in `s`, or `-1`. -/
def strings_Index (s sep : Bytes) : Int :=
  match findIdx sep s with
  | some i => (i : Int)
  | none => -1

/-- Go `strings.LastIndex s sep`: the last offset of `sep` in `s`, or `-1`. -/
def strings_LastIndex (s sep : Bytes) : Int :=
  match findLastIdx sep s with
  | some i => (i : Int)
  | none => -1

/-- The loop of Go `strings.Split` for a non-empty separator: cut at the first
occurrence, continue behind it.  Every cut consumes at least one byte, so
`fuel = len(s)` rounds are enough. -/
def splitFuel (sep : Bytes) : Nat → Bytes → List Bytes
  | 0, s => [s]
  | fuel + 1, s =>
    match findIdx sep s with
    | none => [s]
    | some i => s.take i :: splitFuel sep fuel (s.drop (i + sep.length))

/-- Go `strings.Split s sep` (an empty separator explodes the string into
its bytes). -/
def strings_Split (s sep : Bytes) : List Bytes :=
  if sep = [] then s.map (fun c => [c]) else splitFuel sep s.length s

/-- Go `strings.Replace(s, " ", "", -1)`: every space removed. -/
def removeSpaces (s : Bytes) : Bytes := s.filter (fun c => decide (c ≠ 32))

/-- The digit loop of Go `strconv.ParseUint(s, 10, 64)`: `none` on a byte that
is not a decimal digit and on overflow of the unsigned 64-bit accumulator. -/
def parseUintLoop : Bytes → Nat → Option Nat
  | [], n => some n
  | c :: cs, n =>
    if 48 ≤ c ∧ c ≤ 57 then
      if n ≥ 1844674407370955162 then none
      else
        let n10 := n * 10
        let n1 := (n10 + (c - 48)) % 18446744073709551616
        if n1 < n10 then none else parseUintLoop cs n1
    else none

/-- Go `strconv.ParseUint(s, 10, 64)`. -/
def strconv_ParseUint (s : Bytes) : Option Nat :=
  if s = [] then none else parseUintLoop s 0

/-- Go `strconv.ParseInt(s, 10, 64)`: an optional sign, then decimal digits;
`none` stands for a non-nil error (syntax or range). -/
def strconv_ParseInt (s : Bytes) : Option Int :=
  match s with
  | [] => none
  | c :: cs =>
    let neg := decide (c = 45)
    let body := if c = 43 ∨ c = 45 then cs else c :: cs
    match strconv_ParseUint body with
    | none => none
    | some un =>
      if ¬ neg ∧ un ≥ 9223372036854775808 then none
      else if neg ∧ un > 9223372036854775808 then none
      else some (if neg then -(un : Int) else (un : Int))

/-! ## Constants of `impbyhttp.go` -/

/-- The head terminator `\r\n\r\n`. -/
def HTTPBODYSPLITTER : Bytes := [13, 10, 13, 10]

/-- The chunked-transfer terminator `\r\n0\r\n`. -/
def HTTPTRANSFERENCODINGENDCODE : Bytes := [13, 10, 48, 13, 10]

/-- The header name `Content-Length`. -/
def HTTPHEADERCONTENTLENGTH : Bytes :=
  [67, 111, 110, 116, 101, 110, 116, 45, 76, 101, 110, 103, 116, 104]

/-- The header name `Transfer-Encoding`. -/
def HTTPHEADERTRANSFERENCODING : Bytes :=
  [84, 114, 97, 110, 115, 102, 101, 114, 45, 69, 110, 99, 111, 100, 105, 110, 103]

/-- The header-scan limit, 2 MiB. -/
def HTTPHEADERMAXLENGTH : Nat := 1024 * 1024 * 2

/-- The line separator `\r\n` used by `str2Headers`. -/
def CRLF : Bytes := [13, 10]

/-- The name/value separator `:` used by `str2Headers`. -/
def COLON : Bytes := [58]

/-- The value `chunked`. -/
def CHUNKED : Bytes := [99, 104, 117, 110, 107, 101, 100]

/-! ## Go maps -/

/-- Lookup `m[k]`: the value and whether the key exists. -/
def mapGet {κ α : Type} [DecidableEq κ] (m : List (κ × α)) (k : κ) : Option α :=
  match m with
  | [] => none
  | (k1, v) :: rest => if k1 = k then some v else mapGet rest k

/-- Go `delete(m, k)`. -/
def mapDelete {κ α : Type} [DecidableEq κ] (m : List (κ × α)) (k : κ) : List (κ × α) :=
  m.filter (fun p => decide (p.1 ≠ k))

/-- Assignment `m[k] = v`: the entry of `k` is replaced or added. -/
def mapSet {κ α : Type} [DecidableEq κ] (m : List (κ × α)) (k : κ) (v : α) : List (κ × α) :=
  (k, v) :: mapDelete m k

/-! ## The frame detector `TCPExchanger4HHTTP` -/

/-- The parsed header table, `map[string]string`. -/
abbrev Headers := List (Bytes × Bytes)

/-- The detector fields of `TCPExchanger4HHTTP` (the debug flag, the exchange
flag and the id only drive logging and are left out). -/
structure TCPExchanger4HHTTP where
  headerEndIndex : Int
  bodyEndIndex : Int
  headers : Headers
  receivedLength : Int
  receivedByte : Bytes
deriving DecidableEq, Repr

/-- The state `SendData` sets before its loop. -/
def freshExchanger : TCPExchanger4HHTTP :=
  { headerEndIndex := 0, bodyEndIndex := 0, headers := [],
    receivedLength := 0, receivedByte := [] }

/-- One round of the loop of `str2Headers`: a line with a `:` is split on `:`
and stored as `res[line[0]] = line[1]`. -/
def headerStep (res : Headers) (l : Bytes) : Headers :=
  if strings_Index l COLON > -1 then
    let line := strings_Split l COLON
    mapSet res (line.getD 0 []) (line.getD 1 [])
  else res

/-- `str2Headers`: the header table of a head. -/
def str2Headers (body : Bytes) : Headers :=
  if body.length > 0 then (strings_Split body CRLF).foldl headerStep [] else []

/-- The test `val, exist := headers["Transfer-Encoding"]; exist &&
strings.Replace(val, " ", "", -1) == "chunked"` of `receive`. -/
def isChunked (headers : Headers) : Bool :=
  match mapGet headers HTTPHEADERTRANSFERENCODING with
  | some val => decide (removeSpaces val = CHUNKED)
  | none => false

/-- The adjustment both branches of `receive` apply to a found terminator
offset: `if bodyEndIndex > 0 && receivedLength > len(bt) then
bodyEndIndex = receivedLength + bodyEndIndex`. -/
def shiftBodyEnd (receivedLength : Int) (bt : Bytes) (bodyEndIndex : Int) : Int :=
  if bodyEndIndex > 0 ∧ receivedLength > (bt.length : Int) then
    wrap64 (receivedLength + bodyEndIndex)
  else bodyEndIndex

/-- The first block of `receive` (`if headerEndIndex <= 0`): buffer the chunk,
search the head terminator, parse the head or apply the overflow guard. -/
def receiveHead (e : TCPExchanger4HHTTP) (bt : Bytes) : TCPExchanger4HHTTP :=
  if e.headerEndIndex ≤ 0 then
    let buf := e.receivedByte ++ bt
    let hidx := strings_Index buf HTTPBODYSPLITTER
    if hidx > -1 then
      { e with headerEndIndex := hidx, headers := str2Headers (buf.take hidx.toNat),
               receivedByte := [] }
    else if buf.length ≥ HTTPHEADERMAXLENGTH then
      let b0 := strings_Index bt HTTPTRANSFERENCODINGENDCODE
      let b1 := if b0 < 0 then strings_LastIndex bt HTTPBODYSPLITTER else b0
      { e with headerEndIndex := hidx, receivedByte := [],
               bodyEndIndex := shiftBodyEnd e.receivedLength bt b1 }
    else
      { e with headerEndIndex := hidx, receivedByte := buf }
  else e

/-- The second block of `receive` (`if headerEndIndex > 0`): search the body
terminator in the current chunk. -/
def receiveBody (e : TCPExchanger4HHTTP) (bt : Bytes) : TCPExchanger4HHTTP :=
  if e.headerEndIndex > 0 then
    let b1 :=
      if isChunked e.headers then strings_Index bt HTTPTRANSFERENCODINGENDCODE
      else strings_LastIndex bt HTTPBODYSPLITTER
    { e with bodyEndIndex := shiftBodyEnd e.receivedLength bt b1 }
  else e

/-- `receive`: count the chunk, then the two blocks in order. -/
def receive (e : TCPExchanger4HHTTP) (bt : Bytes) : TCPExchanger4HHTTP :=
  let e1 := { e with receivedLength := wrap64 (e.receivedLength + (bt.length : Int)) }
  receiveBody (receiveHead e1 bt) bt

/-- `isEnd`: whether the message is complete. -/
def isEnd (e : TCPExchanger4HHTTP) : Bool :=
  if e.headerEndIndex ≤ 0 then false
  else
    match mapGet e.headers HTTPHEADERCONTENTLENGTH with
    | some val =>
      match strconv_ParseInt (removeSpaces val) with
      | none => true
      | some length =>
        decide (e.receivedLength ≥ wrap64 (wrap64 (length + e.headerEndIndex) + 4))
    | none =>
      if e.bodyEndIndex > 0 then
        if e.bodyEndIndex = e.headerEndIndex then
          decide (e.receivedLength = wrap64 (e.bodyEndIndex + 4))
        else decide (e.bodyEndIndex > e.headerEndIndex)
      else false

/-- The detector after the chunks were fed in order. -/
def feed (e : TCPExchanger4HHTTP) (chunks : List Bytes) : TCPExchanger4HHTTP :=
  chunks.foldl receive e

/-- The cumulative byte count at which `isEnd` is first true when `receive`
and `isEnd` are called for each chunk in turn, `total` bytes having been
received before; `none` when it is never true. -/
def completionOffsetFrom (e : TCPExchanger4HHTTP) (total : Nat) : List Bytes → Option Nat
  | [] => none
  | c :: cs =>
    if isEnd (receive e c) then some (total + c.length)
    else completionOffsetFrom (receive e c) (total + c.length) cs

/-- The completion offset of a partition fed to a freshly reset detector. -/
def completionOffset (chunks : List Bytes) : Option Nat :=
  completionOffsetFrom freshExchanger 0 chunks

/-! ## The byte forwarder `SendData` -/

/-- A non-nil Go error: `io.EOF` or any other error value. -/
inductive NetError where
  | EOF
  | other (code : Nat)
deriving DecidableEq, Repr

/-- The result `(n, err)` of one `Read(b)` call, with `data = b[:n]`. -/
structure ReadResult where
  data : Bytes
  err : Option NetError
deriving DecidableEq, Repr

/-- What `SendData` does with a chunk, in program order. -/
inductive IOEvent where
  | write (data : Bytes)
  | receive (data : Bytes)
deriving DecidableEq, Repr

/-- The outcome of a run of `SendData`: the returned error, the writes to
`dest` and the calls of `receive` in program order, the read results `src`
still holds, and the final detector state. -/
structure SendResult where
  err : Option NetError
  events : List IOEvent
  unread : List ReadResult
  exchanger : TCPExchanger4HHTTP
deriving DecidableEq, Repr

/-- The `for` loop of `SendData`.  `src` is the list of results its `Read`
calls give (a source with nothing left answers `io.EOF`), `dest` the list
of errors its `Write` calls give (a write without an entry succeeds). -/
def sendLoop (e : TCPExchanger4HHTTP) :
    List ReadResult → List (Option NetError) → SendResult
  | [], _ => { err := none, events := [], unread := [], exchanger := e }
  | r :: src, dest =>
    match r.err with
    | some errSrc =>
      if errSrc ≠ NetError.EOF then
        { err := some errSrc, events := [], unread := src, exchanger := e }
      else { err := none, events := [], unread := src, exchanger := e }
    | none =>
      match dest.headD none with
      | some _ =>
        -- `return errSrc`, and `errSrc` is nil here
        { err := r.err, events := [IOEvent.write r.data], unread := src, exchanger := e }
      | none =>
        let e1 := receive e r.data
        if isEnd e1 then
          { err := none, events := [IOEvent.write r.data, IOEvent.receive r.data],
            unread := src, exchanger := e1 }
        else
          let rest := sendLoop e1 src dest.tail
          { rest with events := IOEvent.write r.data :: IOEvent.receive r.data :: rest.events }

/-- `SendData`: reset the detector (every modelled field is overwritten),
then run the loop. -/
def SendData (_e : TCPExchanger4HHTTP) (src : List ReadResult)
    (dest : List (Option NetError)) : SendResult :=
  sendLoop freshExchanger src dest

/-! ## The tunnel service: constants of `constant.go` and `service.go` -/

/-- The longest command read, `CMDMAXLEN`. -/
def CMDMAXLEN : Nat := 1024

/-- The command `CMDCONNECTCTRL`. -/
def CMDCONNECTCTRL : Bytes := ascii "\r- doconnectctrl -\n"

/-- The command `CMDCONNECT`. -/
def CMDCONNECT : Bytes := ascii "\r- doconnect -\n"

/-- The command `CMDTRANSPORTSTART`. -/
def CMDTRANSPORTSTART : Bytes := ascii "\r- transportstart -\n"

/-- The command `CMDRESET`. -/
def CMDRESET : Bytes := ascii "\r- reset -\n"

/-- A socket `*net.TCPConn`: the identity of the object and the string
`conn.RemoteAddr().String()`. -/
structure TCPConn where
  id : Nat
  remoteAddr : String
deriving DecidableEq, Repr

/-- The idle pool `conns map[string]*net.TCPConn`. -/
abbrev Pool := List (String × TCPConn)

/-- The fields of `TCPTunnelService` the accept loop and the pool operations
use, with two records of their effects: the sockets `Close` was called on and
the number of control adapters started.  `conns = none` is the nil map the
field holds until `clearConn` first runs `make`. -/
structure TCPTunnelService where
  conns : Option Pool
  ctlConn : Option TCPConn
  closed : List TCPConn
  adapters : Nat
deriving DecidableEq, Repr

/-- The entries of `conns`; a nil map has none (`len`, `range` and `delete`
treat it as empty). -/
def TCPTunnelService.pool (s : TCPTunnelService) : Pool := s.conns.getD []

/-- `getCMD`: one `Read` into a buffer of `CMDMAXLEN` bytes; the bytes read
when the error is nil or `io.EOF`, the empty string otherwise. -/
def getCMD (r : ReadResult) : Bytes :=
  if r.err = none ∨ r.err = some NetError.EOF then r.data.take CMDMAXLEN else []

/-- `clearConn`: close and delete every idle connection, then
`conns = make(map[string]*net.TCPConn)`. -/
def clearConn (s : TCPTunnelService) : TCPTunnelService :=
  { s with closed := s.closed ++ s.pool.map Prod.snd, conns := some [] }

/-- The assignment `service.conns[conn.RemoteAddr().String()] = conn`; on a nil
map Go panics (`assignment to entry in nil map`), which is `none`. -/
def assignConn (s : TCPTunnelService) (conn : TCPConn) : Option TCPTunnelService :=
  match s.conns with
  | none => none
  | some entries => some { s with conns := some (mapSet entries conn.remoteAddr conn) }

/-- The body of the accept loop of `DoStart` for one accepted socket `conn`
whose first read gives `r`; `none` when it panics. -/
def acceptStep (s : TCPTunnelService) (conn : TCPConn) (r : ReadResult) :
    Option TCPTunnelService :=
  let cmd := getCMD r
  if s.ctlConn = none ∧ CMDCONNECTCTRL ≠ cmd then some s
  else if cmd = CMDCONNECTCTRL then
    let s1 := clearConn { s with ctlConn := some conn }
    some { s1 with adapters := s1.adapters + 1 }
  else if cmd = CMDCONNECT then assignConn s conn
  else some { s with closed := s.closed ++ [conn] }

/-- The loop of `GetConn` over the entries of the pool: delete the entry,
write `CMDTRANSPORTSTART` (`io conn` gives the error of that write and the
result of the read that follows), return the first connection that answers
with a non-empty command. -/
def getConnLoop (io : TCPConn → Option NetError × ReadResult) :
    Pool → Pool → Option TCPConn × Pool
  | [], conns => (none, conns)
  | (key, conn) :: rest, conns =>
    let conns1 := mapDelete conns key
    match (io conn).1 with
    | some _ => getConnLoop io rest conns1
    | none =>
      if (getCMD (io conn).2).length = 0 then getConnLoop io rest conns1
      else (some conn, conns1)

/-- `GetConn`.  The entries are visited in the order of the list; Go fixes no
order, and the pool ranges over every list. -/
def GetConn (io : TCPConn → Option NetError × ReadResult) (s : TCPTunnelService) :
    Option TCPConn × TCPTunnelService :=
  if s.pool.length > 0 then
    ((getConnLoop io s.pool s.pool).1,
      { s with conns := some (getConnLoop io s.pool s.pool).2 })
  else (none, s)

/-- `RelaseConn`: read one command from `conn` (`r` is the result of that
read) and put the connection back when it is `CMDRESET`; `none` when the
assignment panics. -/
def RelaseConn (s : TCPTunnelService) (conn : TCPConn) (r : ReadResult) :
    Option TCPTunnelService :=
  if getCMD r = CMDRESET then assignConn s conn else some s

/-- The removal a failed heartbeat does in `sendConnHeart`: close `val`,
`delete(conns, key)`. -/
def heartbeatDrop (s : TCPTunnelService) (key : String) (val : TCPConn) : TCPTunnelService :=
  { s with closed := s.closed ++ [val], conns := s.conns.map (fun m => mapDelete m key) }

/-- The deferred exit of `doConnCtrlAdapter`: `clearConn`, close the control
socket, forget it. -/
def ctrlAdapterExit (s : TCPTunnelService) : TCPTunnelService :=
  let s1 := clearConn s
  { s1 with closed := s1.closed ++ s1.ctlConn.toList, ctlConn := none }

/-- An operation of the service on its state, with the results of the socket
calls it makes. -/
inductive ServiceOp where
  | accept (conn : TCPConn) (r : ReadResult)
  | getConn (io : TCPConn → Option NetError × ReadResult)
  | relaseConn (conn : TCPConn) (r : ReadResult)
  | heartbeatFail (key : String) (val : TCPConn)
  | ctrlExit

/-- The state after an operation; `none` when the operation panics. -/
def applyOp (s : TCPTunnelService) : ServiceOp → Option TCPTunnelService
  | ServiceOp.accept conn r => acceptStep s conn r
  | ServiceOp.getConn io => some (GetConn io s).2
  | ServiceOp.relaseConn conn r => RelaseConn s conn r
  | ServiceOp.heartbeatFail key val => some (heartbeatDrop s key val)
  | ServiceOp.ctrlExit => some (ctrlAdapterExit s)

/-- The state after a sequence of operations; `none` when one of them
panics. -/
def runOps (s : TCPTunnelService) : List ServiceOp → Option TCPTunnelService
  | [] => some s
  | op :: ops =>
    match applyOp s op with
    | none => none
    | some s1 => runOps s1 ops

/-- Whether an operation hands the socket `c` to the service: `c` is accepted
or is released. -/
def ServiceOp.handsIn (c : TCPConn) : ServiceOp → Bool
  | ServiceOp.accept conn _ => decide (conn = c)
  | ServiceOp.relaseConn conn _ => decide (conn = c)
  | _ => false

/-- Every entry of the pool is stored under the remote address of its
socket, as every assignment to `conns` in `service.go` does. -/
def WellKeyed (conns : Pool) : Prop := ∀ p ∈ conns, p.1 = p.2.remoteAddr

/-! ## Predicates used in the statements -/

/-- The state of the detector relative to a stream `msg` whose head
terminator is at offset `H`, after the prefix `P` was received: the byte
count is right, and either the head is still being buffered or it was found
at `H` and parsed. -/
def HeadInv (msg : Bytes) (H : Nat) (e : TCPExchanger4HHTTP) (P : Bytes) : Prop :=
  e.receivedLength = (P.length : Int) ∧
  ((P.length < H + 4 ∧ e.headerEndIndex ≤ 0 ∧ e.receivedByte = P) ∨
   (H + 4 ≤ P.length ∧ e.headerEndIndex = (H : Int) ∧ e.headers = str2Headers (msg.take H)))

/-- The name `line[0]` under which `str2Headers` stores a line with a `:`. -/
def headerName (l : Bytes) : Bytes := (strings_Split l COLON).getD 0 []

/-- The value `line[1]` which `str2Headers` stores for a line with a `:`. -/
def headerValue (l : Bytes) : Bytes := (strings_Split l COLON).getD 1 []

/-- The number a string of decimal digits denotes. -/
def decimalValue (ds : Bytes) : Nat := ds.foldl (fun n d => n * 10 + (d - 48)) 0

/-- A non-empty string of decimal digits. -/
def IsDecimal (ds : Bytes) : Prop := ds ≠ [] ∧ ∀ d ∈ ds, 48 ≤ d ∧ d ≤ 57

/-- The header line `Content-Length: N` for the decimal digits `ds` of `N`. -/
def contentLengthLine (ds : Bytes) : Bytes := HTTPHEADERCONTENTLENGTH ++ 58 :: 32 :: ds

instance (ds : Bytes) : Decidable (IsDecimal ds) := by
  unfold IsDecimal; infer_instance

/-! ## Sample messages -/

/-- The response `HTTP/1.1 200 OK`, `Content-Length: 5`, body `hello`. -/
def sampleResponse : Bytes := ascii "HTTP/1.1 200 OK\r\nContent-Length: 5\r\n\r\nhello"

/-- A response head announcing `Content-Length: 9223372036854775808` (`2^63`). -/
def hugeLengthResponse : Bytes :=
  ascii "HTTP/1.1 200 OK\r\nContent-Length: 9223372036854775808\r\n\r\n"

/-- A request head with two `Content-Length` lines, `5` and then `0`. -/
def twoLengthsRequest : Bytes :=
  ascii "POST / HTTP/1.1\r\nContent-Length: 5\r\nContent-Length: 0\r\n\r\n"

/-- The chunked response of scenario S2. -/
def chunkedResponse : Bytes :=
  ascii "HTTP/1.1 200 OK\r\nTransfer-Encoding: chunked\r\n\r\n5\r\nhello\r\n0\r\n\r\n"

/-- The request of scenario S1. -/
def getRequest : Bytes := ascii "GET / HTTP/1.1\r\nHost: x\r\n\r\n"

/-- A successful read of the chunk `c`. -/
def readOk (c : Bytes) : ReadResult := { data := c, err := none }

/-- The read at end-of-stream, `(0, io.EOF)`. -/
def readEOF : ReadResult := { data := [], err := some NetError.EOF }

/-- The program-order record of chunks that are each written to `dest` and
then fed to the detector. -/
def forwarded (chunks : List Bytes) : List IOEvent :=
  chunks.flatMap (fun c => [IOEvent.write c, IOEvent.receive c])

/-- The header line `Transfer-Encoding: chunked`. -/
def chunkedLine : Bytes := HTTPHEADERTRANSFERENCODING ++ 58 :: 32 :: CHUNKED

/-- A chunked response whose head ends in the line `0`, so that `\r\n0\r\n`
first occurs across the end of the head. -/
def zeroLineResponse : Bytes :=
  ascii "HTTP/1.1 200 OK\r\nTransfer-Encoding: chunked\r\n0\r\n\r\n5\r\nhello\r\n0\r\n\r\n"

/-- A response with the lines `Transfer-Encoding: chunked` and then
`Transfer-Encoding: gzip`, and a body ending in `\r\n0\r\n`. -/
def twoEncodingsResponse : Bytes :=
  ascii "HTTP/1.1 200 OK\r\nTransfer-Encoding: chunked\r\nTransfer-Encoding: gzip\r\n\r\n5\r\nhello\r\n0\r\n"

instance (conns : Pool) : Decidable (WellKeyed conns) := by
  unfold WellKeyed; infer_instance

/-! ## Sample service states -/

/-- An idle data socket. -/
def connA : TCPConn := { id := 1, remoteAddr := "10.0.0.1:5000" }

/-- Another idle data socket. -/
def connB : TCPConn := { id := 2, remoteAddr := "10.0.0.2:5000" }

/-- The registered control socket. -/
def connCtl : TCPConn := { id := 0, remoteAddr := "10.0.0.9:4000" }

/-- A newly accepted socket. -/
def connNew : TCPConn := { id := 7, remoteAddr := "10.0.0.7:6000" }

/-- A service with a registered control socket and two idle connections. -/
def sampleService : TCPTunnelService :=
  { conns := some [(connA.remoteAddr, connA), (connB.remoteAddr, connB)],
    ctlConn := some connCtl, closed := [], adapters := 1 }

/-- The service as `DoStart` finds it: no control socket, and `conns` still
the nil map. -/
def emptyService : TCPTunnelService :=
  { conns := none, ctlConn := none, closed := [], adapters := 0 }

/-- Socket results for `GetConn`: every write succeeds and every peer answers
`\r- ok -\n`. -/
def allAnswer : TCPConn → Option NetError × ReadResult :=
  fun _ => (none, { data := ascii "\r- ok -\n", err := none })

/-- The first chunk of the split chunked response of S2: the head, its
terminator and the body bytes `5\r\nhel` (53 bytes). -/
def chunkedFirst : Bytes := chunkedResponse.take 53

/-- The second chunk of that split: `lo\r\n0\r\n\r\n` (9 bytes), with the chunked
terminator at chunk-relative offset 2. -/
def chunkedSecond : Bytes := chunkedResponse.drop 53

/-- A chunk of 2 MiB of the letter `A`: as long as the header-scan limit and
without any CR or LF. -/
def overflowChunk : Bytes := List.replicate HTTPHEADERMAXLENGTH 65

/-- A stream of 2 MiB of `A` followed by `\r\n0\r\n`: at the limit, without a
CRLFCRLF, with a chunked terminator. -/
def overflowWithTerminator : Bytes := overflowChunk ++ HTTPTRANSFERENCODINGENDCODE

/-! # Lemmas -/

theorem hasPrefix_iff (s p : Bytes) : hasPrefix s p = true ↔ p <+: s := by
  induction p generalizing s with
  | nil => simp [hasPrefix]
  | cons b p ih =>
    cases s with
    | nil => simp [hasPrefix]
    | cons a s =>
      simp only [hasPrefix, Bool.and_eq_true, decide_eq_true_eq, ih, List.cons_prefix_cons]
      constructor
      · rintro ⟨h1, h2⟩; exact ⟨h1.symm, h2⟩
      · rintro ⟨h1, h2⟩; exact ⟨h1.symm, h2⟩

theorem findIdx_short (sep s : Bytes) (h : s.length < sep.length) : findIdx sep s = none := by
  induction s with
  | nil =>
    have : sep ≠ [] := by rintro rfl; simp at h
    simp [findIdx, this]
  | cons c cs ih =>
    have h1 : hasPrefix (c :: cs) sep = false := by
      rw [Bool.eq_false_iff]; intro hp
      have := ((hasPrefix_iff _ _).1 hp).length_le
      omega
    have h2 := ih (by simp at h; omega)
    simp [findIdx, h1, h2]

theorem prefix_findIdx (sep : Bytes) (hsep : sep ≠ []) :
    ∀ (s P : Bytes) (H : Nat), findIdx sep s = some H → P <+: s →
      findIdx sep P = if H + sep.length ≤ P.length then some H else none := by
  intro s
  induction s with
  | nil => intro P H h; simp [findIdx, hsep] at h
  | cons c cs ih =>
    intro P H h hP
    cases P with
    | nil =>
      have : ¬ (H + sep.length ≤ 0) := by
        have := List.length_pos.2 hsep; omega
      simp [findIdx, hsep, this]
    | cons a P =>
      rw [List.cons_prefix_cons] at hP
      obtain ⟨rfl, hP⟩ := hP
      by_cases hp : hasPrefix (a :: cs) sep = true
      · simp only [findIdx, hp, if_true, Option.some.injEq] at h
        subst h
        by_cases hl : sep.length ≤ (a :: P).length
        · have h3 : sep <+: a :: P :=
            List.prefix_of_prefix_length_le ((hasPrefix_iff _ _).1 hp)
              (List.cons_prefix_cons.2 ⟨rfl, hP⟩) hl
          rw [if_pos (by omega)]
          simp [findIdx, (hasPrefix_iff _ _).2 h3]
        · rw [if_neg (by omega)]
          exact findIdx_short sep (a :: P) (by omega)
      · have hp2 : hasPrefix (a :: P) sep = false := by
          rw [Bool.eq_false_iff]; intro hq
          exact hp ((hasPrefix_iff _ _).2
            (((hasPrefix_iff _ _).1 hq).trans (List.cons_prefix_cons.2 ⟨rfl, hP⟩)))
        simp only [findIdx, hp, Bool.false_eq_true, if_false, Option.map_eq_some'] at h
        obtain ⟨H1, h1, rfl⟩ := h
        have := ih P H1 h1 hP
        simp only [findIdx, hp2, Bool.false_eq_true, if_false, this]
        by_cases hl : H1 + sep.length ≤ P.length
        · have : H1 + 1 + sep.length ≤ (a :: P).length := by simp; omega
          rw [if_pos hl, if_pos this]; rfl
        · have : ¬ (H1 + 1 + sep.length ≤ (a :: P).length) := by simp; omega
          rw [if_neg hl, if_neg this]; rfl

theorem wrap64_of_range (x : Int) (h1 : -9223372036854775808 ≤ x) (h2 : x < 9223372036854775808) :
    wrap64 x = x := by
  unfold wrap64; omega

theorem receive_notFound (e : TCPExchanger4HHTTP) (bt : Bytes) (h0 : e.headerEndIndex ≤ 0)
    (hf : findIdx HTTPBODYSPLITTER (e.receivedByte ++ bt) = none)
    (hl : (e.receivedByte ++ bt).length < HTTPHEADERMAXLENGTH) :
    receive e bt =
      { e with receivedLength := wrap64 (e.receivedLength + (bt.length : Int)),
               headerEndIndex := -1, receivedByte := e.receivedByte ++ bt } := by
  have hl2 : ¬ (HTTPHEADERMAXLENGTH ≤ (e.receivedByte ++ bt).length) := by omega
  simp only [receive, receiveHead, receiveBody, strings_Index, h0, hf, if_true, ge_iff_le, hl2,
    if_false]
  simp

theorem receive_found (e : TCPExchanger4HHTTP) (bt : Bytes) (H : Nat) (h0 : e.headerEndIndex ≤ 0)
    (hf : findIdx HTTPBODYSPLITTER (e.receivedByte ++ bt) = some H) (hH : 0 < H) :
    (receive e bt).headerEndIndex = (H : Int) ∧
    (receive e bt).headers = str2Headers ((e.receivedByte ++ bt).take H) ∧
    (receive e bt).receivedLength = wrap64 (e.receivedLength + (bt.length : Int)) := by
  have h1 : ((H : Int) > -1) := by omega
  have h2 : ((H : Int) > 0) := by omega
  simp only [receive, receiveHead, receiveBody, strings_Index, h0, hf, if_true, h1, h2,
    Int.toNat_ofNat]
  simp

theorem receive_parsed (e : TCPExchanger4HHTTP) (bt : Bytes) (h0 : 0 < e.headerEndIndex) :
    (receive e bt).headerEndIndex = e.headerEndIndex ∧
    (receive e bt).headers = e.headers ∧
    (receive e bt).receivedLength = wrap64 (e.receivedLength + (bt.length : Int)) := by
  have h1 : ¬ (e.headerEndIndex ≤ 0) := by omega
  simp only [receive, receiveHead, receiveBody, h1, if_false, gt_iff_lt, h0, if_true]
  simp

theorem prefix_take_eq (P msg : Bytes) (H : Nat) (hP : P <+: msg) (hH : H ≤ P.length) :
    P.take H = msg.take H := by
  obtain ⟨t, rfl⟩ := hP
  rw [List.take_append_of_le_length hH]

theorem headInv_fresh (msg : Bytes) (H : Nat) : HeadInv msg H freshExchanger [] := by
  refine ⟨rfl, Or.inl ⟨by simp, by simp [freshExchanger], rfl⟩⟩

theorem headInv_receive (msg : Bytes) (H : Nat)
    (hidx : findIdx HTTPBODYSPLITTER msg = some H) (hH : 0 < H)
    (hmax : H + 4 ≤ HTTPHEADERMAXLENGTH) (hlen : msg.length < 9223372036854775808)
    (e : TCPExchanger4HHTTP) (P c : Bytes) (hinv : HeadInv msg H e P) (hP : P ++ c <+: msg) :
    HeadInv msg H (receive e c) (P ++ c) := by
  have hPl : (P ++ c).length ≤ msg.length := hP.length_le
  have hlenc : ((P ++ c).length : Int) = (P.length : Int) + (c.length : Int) := by simp
  have hw : wrap64 ((P.length : Int) + (c.length : Int)) = ((P ++ c).length : Int) := by
    rw [hlenc]; apply wrap64_of_range <;> [skip; rw [← hlenc]] <;> omega
  obtain ⟨hrl, hcase⟩ := hinv
  have hfind := prefix_findIdx HTTPBODYSPLITTER (by decide) msg (P ++ c) H hidx hP
  have h4 : HTTPBODYSPLITTER.length = 4 := rfl
  rw [h4] at hfind
  rcases hcase with ⟨_, h0, hbuf⟩ | ⟨hge, hh, hhd⟩
  · by_cases hnow : H + 4 ≤ (P ++ c).length
    · rw [if_pos hnow, ← hbuf] at hfind
      obtain ⟨a1, a2, a3⟩ := receive_found e c H h0 hfind hH
      refine ⟨by rw [a3, hrl, hw], Or.inr ⟨hnow, a1, ?_⟩⟩
      rw [a2, hbuf]
      rw [prefix_take_eq (P ++ c) msg H hP (by omega)]
    · rw [if_neg hnow, ← hbuf] at hfind
      have hlt : (e.receivedByte ++ c).length < HTTPHEADERMAXLENGTH := by rw [hbuf]; omega
      rw [receive_notFound e c h0 hfind hlt]
      refine ⟨by simp only; rw [hrl, hw], Or.inl ⟨by omega, by simp, by simp [hbuf]⟩⟩
  · obtain ⟨a1, a2, a3⟩ := receive_parsed e c (by omega)
    refine ⟨by rw [a3, hrl, hw], Or.inr ⟨?_, by rw [a1, hh], by rw [a2, hhd]⟩⟩
    simp only [List.length_append]; omega

theorem headInv_feed (msg : Bytes) (H : Nat)
    (hidx : findIdx HTTPBODYSPLITTER msg = some H) (hH : 0 < H)
    (hmax : H + 4 ≤ HTTPHEADERMAXLENGTH) (hlen : msg.length < 9223372036854775808)
    (cs : List Bytes) : ∀ (e : TCPExchanger4HHTTP) (P : Bytes), HeadInv msg H e P →
      P ++ cs.flatten <+: msg → HeadInv msg H (feed e cs) (P ++ cs.flatten) := by
  induction cs with
  | nil => intro e P h _; simpa [feed] using h
  | cons c cs ih =>
    intro e P h hP
    have hP2 : (P ++ c) ++ cs.flatten <+: msg := by simpa [List.append_assoc] using hP
    have h1 := headInv_receive msg H hidx hH hmax hlen e P c h
      ((List.prefix_append _ _).trans hP2)
    have := ih (receive e c) (P ++ c) h1 hP2
    simpa [feed, List.append_assoc] using this

theorem mapGet_mapDelete {κ α : Type} [DecidableEq κ] (m : List (κ × α)) (k k1 : κ) :
    mapGet (mapDelete m k) k1 = if k1 = k then none else mapGet m k1 := by
  induction m with
  | nil => simp [mapDelete, mapGet]
  | cons p m ih =>
    obtain ⟨a, b⟩ := p
    unfold mapDelete at ih ⊢
    by_cases h1 : a = k
    · subst h1
      simp only [List.filter_cons, ne_eq, not_true_eq_false, decide_False, Bool.false_eq_true,
        if_false, ih, mapGet]
      by_cases h2 : k1 = a
      · simp [h2]
      · have : ¬ a = k1 := fun h => h2 h.symm
        simp [h2, this]
    · simp only [List.filter_cons, ne_eq, h1, not_false_eq_true, decide_True, if_true, mapGet, ih]
      by_cases h2 : a = k1
      · subst h2; simp [h1]
      · simp [h2]

theorem mapGet_mapSet {κ α : Type} [DecidableEq κ] (m : List (κ × α)) (k k1 : κ) (v : α) :
    mapGet (mapSet m k v) k1 = if k = k1 then some v else mapGet m k1 := by
  unfold mapSet
  simp only [mapGet, mapGet_mapDelete]
  by_cases h : k = k1
  · simp [h]
  · have : ¬ k1 = k := fun h2 => h h2.symm
    simp [h, this]

theorem headerStep_get (res : Headers) (l k : Bytes) :
    mapGet (headerStep res l) k =
      if strings_Index l COLON > -1 ∧ headerName l = k then some (headerValue l)
      else mapGet res k := by
  unfold headerStep
  by_cases h : strings_Index l COLON > -1
  · simp only [h, if_true, mapGet_mapSet, true_and]
    rfl
  · simp [h]

theorem headers_get_of_lines (lines : List Bytes) (k v : Bytes)
    (hval : ∀ l ∈ lines, strings_Index l COLON > -1 → headerName l = k → headerValue l = v) :
    ∀ init : Headers,
      (mapGet init k = some v ∨ ∃ l ∈ lines, strings_Index l COLON > -1 ∧ headerName l = k) →
      mapGet (lines.foldl headerStep init) k = some v := by
  induction lines with
  | nil => intro init h; simpa using h
  | cons l ls ih =>
    intro init h
    rw [List.foldl_cons]
    apply ih (fun x hx => hval x (List.mem_cons_of_mem _ hx))
    rw [headerStep_get]
    by_cases hl : strings_Index l COLON > -1 ∧ headerName l = k
    · left; rw [if_pos hl, hval l (List.mem_cons_self _ _) hl.1 hl.2]
    · rw [if_neg hl]
      rcases h with h | ⟨x, hx, hx2⟩
      · exact Or.inl h
      · rcases List.mem_cons.1 hx with rfl | hx3
        · exact absurd hx2 hl
        · exact Or.inr ⟨x, hx3, hx2⟩

theorem headers_get_origin (lines : List Bytes) (k v : Bytes) :
    ∀ init : Headers, mapGet (lines.foldl headerStep init) k = some v →
      mapGet init k = some v ∨
        ∃ l ∈ lines, strings_Index l COLON > -1 ∧ headerName l = k ∧ headerValue l = v := by
  induction lines with
  | nil => intro init h; exact Or.inl h
  | cons l ls ih =>
    intro init h
    rw [List.foldl_cons] at h
    rcases ih _ h with h1 | ⟨x, hx, hx2⟩
    · rw [headerStep_get] at h1
      by_cases hl : strings_Index l COLON > -1 ∧ headerName l = k
      · rw [if_pos hl] at h1
        exact Or.inr ⟨l, List.mem_cons_self _ _, hl.1, hl.2, Option.some.inj h1⟩
      · rw [if_neg hl] at h1; exact Or.inl h1
    · exact Or.inr ⟨x, List.mem_cons_of_mem _ hx, hx2⟩

theorem hasPrefix_single (a c : Nat) (cs : Bytes) : hasPrefix (c :: cs) [a] = decide (c = a) := by
  simp [hasPrefix]

theorem findIdx_single_not_mem (a : Nat) (s : Bytes) (h : a ∉ s) : findIdx [a] s = none := by
  induction s with
  | nil => simp [findIdx]
  | cons c cs ih =>
    have h1 : ¬ c = a := fun hc => h (by simp [hc])
    have h2 : a ∉ cs := fun hc => h (List.mem_cons_of_mem _ hc)
    simp [findIdx, hasPrefix_single, h1, ih h2]

theorem findIdx_single_append (a : Nat) (k v : Bytes) (h : a ∉ k) :
    findIdx [a] (k ++ a :: v) = some k.length := by
  induction k with
  | nil => simp [findIdx, hasPrefix_single]
  | cons c cs ih =>
    have h1 : ¬ c = a := fun hc => h (by simp [hc])
    have h2 : a ∉ cs := fun hc => h (List.mem_cons_of_mem _ hc)
    simp [findIdx, hasPrefix_single, h1, ih h2]

theorem findIdx_single_some (a : Nat) (s : Bytes) :
    ∀ i, findIdx [a] s = some i → s = s.take i ++ a :: s.drop (i + 1) := by
  induction s with
  | nil => intro i h; simp [findIdx] at h
  | cons c cs ih =>
    intro i h
    by_cases h1 : c = a
    · simp only [findIdx, hasPrefix_single, h1, decide_True, if_true, Option.some.injEq] at h
      subst h; simp [h1]
    · simp only [findIdx, hasPrefix_single, h1, decide_False, Bool.false_eq_true, if_false,
        Option.map_eq_some'] at h
      obtain ⟨j, hj, rfl⟩ := h
      have := ih j hj
      simp only [List.take_succ_cons, List.drop_succ_cons, List.cons_append]
      rw [← this]

theorem splitFuel_none (sep s : Bytes) (n : Nat) (h : findIdx sep s = none) :
    splitFuel sep n s = [s] := by
  cases n with
  | zero => rfl
  | succ n => simp [splitFuel, h]

theorem split_colon_some (l : Bytes) (i : Nat) (h : findIdx COLON l = some i) :
    strings_Split l COLON = l.take i :: splitFuel COLON (l.length - 1) (l.drop (i + 1)) := by
  have hne : l ≠ [] := by rintro rfl; simp [findIdx, COLON] at h
  obtain ⟨n, hn⟩ : ∃ n, l.length = n + 1 := ⟨l.length - 1, by
    have := List.length_pos.2 hne; omega⟩
  have hc : COLON ≠ [] := by decide
  simp only [strings_Split, hc, if_false, hn, splitFuel, h, Nat.add_sub_cancel]
  rfl

theorem headerName_of_findIdx (l : Bytes) (i : Nat) (h : findIdx COLON l = some i) :
    headerName l = l.take i := by
  simp [headerName, split_colon_some l i h]

theorem hasColon_iff (l : Bytes) :
    strings_Index l COLON > -1 ↔ ∃ i, findIdx COLON l = some i := by
  unfold strings_Index
  cases h : findIdx COLON l with
  | none => simp
  | some i => simp; omega

theorem prefix_of_headerName (l k : Bytes) (hc : strings_Index l COLON > -1)
    (hn : headerName l = k) : hasPrefix l (k ++ COLON) = true := by
  obtain ⟨i, hi⟩ := (hasColon_iff l).1 hc
  rw [headerName_of_findIdx l i hi] at hn
  rw [hasPrefix_iff]
  have := findIdx_single_some 58 l i hi
  rw [← hn]
  refine ⟨l.drop (i + 1), ?_⟩
  conv_rhs => rw [this]
  simp [COLON]

theorem headerLine_parts (k v : Bytes) (hk : 58 ∉ k) (hv : 58 ∉ v) :
    strings_Index (k ++ 58 :: v) COLON > -1 ∧ headerName (k ++ 58 :: v) = k ∧
      headerValue (k ++ 58 :: v) = v := by
  have h1 : findIdx COLON (k ++ 58 :: v) = some k.length := findIdx_single_append 58 k v hk
  have h2 := split_colon_some _ _ h1
  have h3 : List.drop (k.length + 1) (k ++ 58 :: v) = v := by
    rw [List.drop_append_eq_append_drop]; simp
  rw [h3, splitFuel_none COLON v _ (findIdx_single_not_mem 58 v hv)] at h2
  refine ⟨(hasColon_iff _).2 ⟨_, h1⟩, ?_, ?_⟩
  · rw [headerName_of_findIdx _ _ h1]; simp
  · simp [headerValue, h2]

/-- A header line `k:v` that is the only line of its name gives `headers[k] = v`. -/
theorem str2Headers_get_of_line (head k v : Bytes) (hk : 58 ∉ k) (hv : 58 ∉ v)
    (hmem : k ++ 58 :: v ∈ strings_Split head CRLF)
    (huniq : ∀ l ∈ strings_Split head CRLF, hasPrefix l (k ++ COLON) = true → l = k ++ 58 :: v) :
    mapGet (str2Headers head) k = some v := by
  obtain ⟨p1, p2, p3⟩ := headerLine_parts k v hk hv
  have hne : head.length > 0 := by
    rcases head with _ | ⟨a, t⟩
    · exfalso
      have : strings_Split [] CRLF = [[]] := by decide
      rw [this] at hmem
      simp at hmem
    · simp
  unfold str2Headers
  rw [if_pos hne]
  apply headers_get_of_lines
  · intro l hl hc hn
    rw [huniq l hl (prefix_of_headerName l k hc hn)]
    exact p3
  · exact Or.inr ⟨_, hmem, p1, p2⟩

/-- No line beginning with `k:` gives no entry `headers[k]`. -/
theorem str2Headers_get_none (head k : Bytes)
    (h : ∀ l ∈ strings_Split head CRLF, hasPrefix l (k ++ COLON) = false) :
    mapGet (str2Headers head) k = none := by
  unfold str2Headers
  split
  · cases hg : mapGet (List.foldl headerStep [] (strings_Split head CRLF)) k with
    | none => rfl
    | some v =>
      rcases headers_get_origin _ k v [] hg with h1 | ⟨l, hl, hc, hn, _⟩
      · simp [mapGet] at h1
      · have := prefix_of_headerName l k hc hn
        rw [h l hl] at this
        exact absurd this (by simp)
  · rfl

theorem le_foldl_decimal (ds : Bytes) : ∀ n : Nat,
    n ≤ ds.foldl (fun n d => n * 10 + (d - 48)) n := by
  induction ds with
  | nil => intro n; simp
  | cons d ds ih =>
    intro n
    rw [List.foldl_cons]
    have := ih (n * 10 + (d - 48))
    omega

theorem parseUintLoop_digits (ds : Bytes) : ∀ n : Nat,
    (∀ d ∈ ds, 48 ≤ d ∧ d ≤ 57) →
    ds.foldl (fun n d => n * 10 + (d - 48)) n < 18446744073709551616 →
    parseUintLoop ds n = some (ds.foldl (fun n d => n * 10 + (d - 48)) n) := by
  induction ds with
  | nil => intro n _ _; rfl
  | cons d ds ih =>
    intro n hd hlt
    rw [List.foldl_cons] at hlt ⊢
    have hdig := hd d (List.mem_cons_self _ _)
    have hmono := le_foldl_decimal ds (n * 10 + (d - 48))
    have h1 : ¬ (n ≥ 1844674407370955162) := by omega
    have h2 : (n * 10 + (d - 48)) % 18446744073709551616 = n * 10 + (d - 48) :=
      Nat.mod_eq_of_lt (by omega)
    have h3 : ¬ (n * 10 + (d - 48) < n * 10) := by omega
    simp only [parseUintLoop, hdig, and_self, if_true, h1, if_false, h2, h3]
    exact ih _ (fun x hx => hd x (List.mem_cons_of_mem _ hx)) hlt

theorem parseInt_decimal (ds : Bytes) (hds : IsDecimal ds)
    (hlt : decimalValue ds < 9223372036854775808) :
    strconv_ParseInt ds = some (decimalValue ds : Int) := by
  obtain ⟨hne, hdig⟩ := hds
  have hu : strconv_ParseUint ds = some (decimalValue ds) := by
    unfold strconv_ParseUint
    rw [if_neg hne]
    exact parseUintLoop_digits ds 0 hdig (by unfold decimalValue at hlt; omega)
  cases ds with
  | nil => exact absurd rfl hne
  | cons c cs =>
    have hc := hdig c (List.mem_cons_self _ _)
    have h1 : ¬ c = 43 := by omega
    have h2 : ¬ c = 45 := by omega
    have h3 : ¬ (9223372036854775808 ≤ decimalValue (c :: cs)) := by omega
    simp [strconv_ParseInt, h1, h2, hu, h3]

theorem removeSpaces_digits (ds : Bytes) (hdig : ∀ d ∈ ds, 48 ≤ d ∧ d ≤ 57) :
    removeSpaces (32 :: ds) = ds := by
  unfold removeSpaces
  rw [List.filter_cons_of_neg (by simp)]
  apply List.filter_eq_self.2
  intro d hd
  have := hdig d hd
  simp; omega

theorem findIdx_of_index (s sep : Bytes) (H : Nat) (h : strings_Index s sep = (H : Int)) :
    findIdx sep s = some H := by
  unfold strings_Index at h
  cases hf : findIdx sep s with
  | none => rw [hf] at h; simp at h
  | some i => rw [hf] at h; simp at h; rw [h]

theorem prefix_flatten_take (chunks : List Bytes) (k : Nat) :
    (chunks.take k).flatten <+: chunks.flatten := by
  conv_rhs => rw [← List.take_append_drop k chunks, List.flatten_append]
  exact List.prefix_append _ _

/-- The detector on a prefix `P` of a message with an in-range `Content-Length: N`:
complete exactly from `H + 4 + N` bytes on. -/
theorem isEnd_contentLength (msg : Bytes) (H : Nat) (ds : Bytes) (e : TCPExchanger4HHTTP)
    (P : Bytes) (hH : 0 < H) (hds : IsDecimal ds)
    (hline : contentLengthLine ds ∈ strings_Split (msg.take H) CRLF)
    (huniq : ∀ l ∈ strings_Split (msg.take H) CRLF,
      hasPrefix l (HTTPHEADERCONTENTLENGTH ++ COLON) = true → l = contentLengthLine ds)
    (hrange : H + 4 + decimalValue ds < 9223372036854775808)
    (hinv : HeadInv msg H e P) :
    isEnd e = true ↔ H + 4 + decimalValue ds ≤ P.length := by
  obtain ⟨hrl, hcase⟩ := hinv
  rcases hcase with ⟨hlt, h0, _⟩ | ⟨hge, hh, hhd⟩
  · simp only [isEnd, h0, if_true, Bool.false_eq_true, false_iff]
    omega
  · have hget : mapGet e.headers HTTPHEADERCONTENTLENGTH = some (32 :: ds) := by
      rw [hhd]
      apply str2Headers_get_of_line _ _ _ (by decide) _ hline huniq
      intro hm
      rcases List.mem_cons.1 hm with h | h
      · exact absurd h (by decide)
      · have := hds.2 58 h; omega
    have hp := parseInt_decimal ds hds (by omega)
    have h1 : ¬ (e.headerEndIndex ≤ 0) := by omega
    have hw1 : wrap64 ((decimalValue ds : Int) + e.headerEndIndex) =
        (decimalValue ds : Int) + (H : Int) := by
      rw [hh]; apply wrap64_of_range <;> omega
    have hw2 : wrap64 ((decimalValue ds : Int) + (H : Int) + 4) =
        (decimalValue ds : Int) + (H : Int) + 4 := by
      apply wrap64_of_range <;> omega
    simp only [isEnd, h1, if_false, hget, removeSpaces_digits ds hds.2, hp, hw1, hw2, hrl,
      ge_iff_le, decide_eq_true_eq]
    omega

/-- C1 (amended): for a message whose head ends at the first CRLFCRLF at offset `H`
(`0 < H`, `H + 4 ≤ 2 MiB`), whose only header line named `Content-Length` is
`Content-Length: N` with `H + 4 + N` and the message length below `2^63`, and for
every splitting of the message into chunks fed to a fresh detector: after the
first `k` chunks `isEnd` is true if and only if at least `H + 4 + N` bytes were
received. -/
theorem contentLength_completion (msg : Bytes) (H : Nat) (ds : Bytes) (chunks : List Bytes)
    (hidx : strings_Index msg HTTPBODYSPLITTER = (H : Int)) (hH : 0 < H)
    (hmax : H + 4 ≤ HTTPHEADERMAXLENGTH) (hds : IsDecimal ds)
    (hline : contentLengthLine ds ∈ strings_Split (msg.take H) CRLF)
    (huniq : ∀ l ∈ strings_Split (msg.take H) CRLF,
      hasPrefix l (HTTPHEADERCONTENTLENGTH ++ COLON) = true → l = contentLengthLine ds)
    (hrange : H + 4 + decimalValue ds < 9223372036854775808)
    (hlen : msg.length < 9223372036854775808)
    (hchunks : chunks.flatten = msg) (k : Nat) :
    isEnd (feed freshExchanger (chunks.take k)) = true ↔
      H + 4 + decimalValue ds ≤ (chunks.take k).flatten.length := by
  have hpre : [] ++ (chunks.take k).flatten <+: msg := by
    rw [← hchunks]; exact prefix_flatten_take chunks k
  have hinv := headInv_feed msg H (findIdx_of_index _ _ _ hidx) hH hmax hlen (chunks.take k)
    freshExchanger [] (headInv_fresh msg H) hpre
  exact isEnd_contentLength msg H ds _ _ hH hds hline huniq hrange hinv

theorem contentLength_completion_witness :
    (isEnd (feed freshExchanger
        ([sampleResponse.take 30, sampleResponse.drop 30].take 1)) = true ↔
      34 + 4 + decimalValue [53] ≤
        ([sampleResponse.take 30, sampleResponse.drop 30].take 1).flatten.length) ∧
    (isEnd (feed freshExchanger
        ([sampleResponse.take 30, sampleResponse.drop 30].take 2)) = true ↔
      34 + 4 + decimalValue [53] ≤
        ([sampleResponse.take 30, sampleResponse.drop 30].take 2).flatten.length) :=
  ⟨contentLength_completion sampleResponse 34 [53] [sampleResponse.take 30, sampleResponse.drop 30]
      (by decide) (by decide) (by decide) (by unfold IsDecimal; decide) (by decide) (by decide)
      (by decide) (by decide) (by decide) 1,
   contentLength_completion sampleResponse 34 [53] [sampleResponse.take 30, sampleResponse.drop 30]
      (by decide) (by decide) (by decide) (by unfold IsDecimal; decide) (by decide) (by decide)
      (by decide) (by decide) (by decide) 2⟩

/-- C1 (as stated) fails.  `hugeLengthResponse` has its first CRLFCRLF at offset 52
and carries `Content-Length: 9223372036854775808`; fed as one chunk of 56 bytes,
`isEnd` is true (the value does not parse as an `int64`) although fewer than
`52 + 4 + 2^63` bytes were received.  `twoLengthsRequest` has its first CRLFCRLF at
offset 53 and carries `Content-Length: 5`; fed as one chunk of 57 bytes, `isEnd` is
true (the later line `Content-Length: 0` replaced the value) although fewer than
`53 + 4 + 5` bytes were received. -/
theorem contentLength_counterexample :
    (strings_Index hugeLengthResponse HTTPBODYSPLITTER = 52 ∧
      52 + 4 ≤ HTTPHEADERMAXLENGTH ∧
      IsDecimal (ascii "9223372036854775808") ∧
      decimalValue (ascii "9223372036854775808") = 9223372036854775808 ∧
      contentLengthLine (ascii "9223372036854775808") ∈
        strings_Split (hugeLengthResponse.take 52) CRLF ∧
      isEnd (feed freshExchanger [hugeLengthResponse]) = true ∧
      ¬ (52 + 4 + 9223372036854775808 ≤ [hugeLengthResponse].flatten.length)) ∧
    (strings_Index twoLengthsRequest HTTPBODYSPLITTER = 53 ∧
      IsDecimal (ascii "5") ∧ decimalValue (ascii "5") = 5 ∧
      contentLengthLine (ascii "5") ∈ strings_Split (twoLengthsRequest.take 53) CRLF ∧
      isEnd (feed freshExchanger [twoLengthsRequest]) = true ∧
      ¬ (53 + 4 + 5 ≤ [twoLengthsRequest].flatten.length)) := by
  decide

/-- The detector reports completion exactly at the end of a `Content-Length`
message of `H + 4 + N` bytes, whatever the partition into non-empty chunks. -/
theorem completionOffsetFrom_exact (msg : Bytes) (H : Nat) (ds : Bytes)
    (hidx : findIdx HTTPBODYSPLITTER msg = some H) (hH : 0 < H)
    (hmax : H + 4 ≤ HTTPHEADERMAXLENGTH) (hds : IsDecimal ds)
    (hline : contentLengthLine ds ∈ strings_Split (msg.take H) CRLF)
    (huniq : ∀ l ∈ strings_Split (msg.take H) CRLF,
      hasPrefix l (HTTPHEADERCONTENTLENGTH ++ COLON) = true → l = contentLengthLine ds)
    (hlen : msg.length = H + 4 + decimalValue ds)
    (hrange : msg.length < 9223372036854775808) (cs : List Bytes) :
    ∀ (e : TCPExchanger4HHTTP) (P : Bytes), HeadInv msg H e P → P ++ cs.flatten = msg →
      (∀ c ∈ cs, c ≠ []) → cs ≠ [] →
      completionOffsetFrom e P.length cs = some msg.length := by
  induction cs with
  | nil => intro e P _ _ _ h; exact absurd rfl h
  | cons c rest ih =>
    intro e P hinv hP hne _
    have hP2 : (P ++ c) ++ rest.flatten = msg := by simpa [List.append_assoc] using hP
    have hpre : P ++ c <+: msg := ⟨rest.flatten, hP2⟩
    have hinv2 := headInv_receive msg H hidx hH hmax hrange e P c hinv hpre
    have hend := isEnd_contentLength msg H ds _ _ hH hds hline huniq (by omega) hinv2
    have hlen2 : (P ++ c).length + rest.flatten.length = msg.length := by
      rw [← hP2, List.length_append (P ++ c)]
    have hadd : P.length + c.length = (P ++ c).length := by simp
    unfold completionOffsetFrom
    rw [hadd]
    cases rest with
    | nil =>
      have h0 : ([] : List Bytes).flatten.length = 0 := rfl
      rw [h0] at hlen2
      have : isEnd (receive e c) = true := hend.2 (by omega)
      rw [if_pos this, ← hlen2]; rfl
    | cons r rs =>
      have hr : r ≠ [] := hne r (by simp)
      have hpos : 0 < (r :: rs).flatten.length := by
        have := List.length_pos.2 hr
        simp only [List.flatten_cons, List.length_append]; omega
      have : ¬ isEnd (receive e c) = true := fun h => by have := hend.1 h; omega
      rw [if_neg this]
      exact ih _ _ hinv2 hP2 (fun x hx => hne x (List.mem_cons_of_mem _ hx)) (by simp)

/-- C2 (amended): for a byte stream that is exactly one message framed by
`Content-Length` (first CRLFCRLF at `H`, `0 < H`, `H + 4 ≤ 2 MiB`, the only header
line named `Content-Length` is `Content-Length: N`, and the stream has exactly
`H + 4 + N < 2^63` bytes), any two partitions into non-empty chunks give the
same completion offset, the length of the stream. -/
theorem completionOffset_repartition (msg : Bytes) (H : Nat) (ds : Bytes)
    (p1 p2 : List Bytes)
    (hidx : strings_Index msg HTTPBODYSPLITTER = (H : Int)) (hH : 0 < H)
    (hmax : H + 4 ≤ HTTPHEADERMAXLENGTH) (hds : IsDecimal ds)
    (hline : contentLengthLine ds ∈ strings_Split (msg.take H) CRLF)
    (huniq : ∀ l ∈ strings_Split (msg.take H) CRLF,
      hasPrefix l (HTTPHEADERCONTENTLENGTH ++ COLON) = true → l = contentLengthLine ds)
    (hlen : msg.length = H + 4 + decimalValue ds)
    (hrange : msg.length < 9223372036854775808)
    (h1 : p1.flatten = msg) (h2 : p2.flatten = msg)
    (hne1 : ∀ c ∈ p1, c ≠ []) (hne2 : ∀ c ∈ p2, c ≠ []) :
    completionOffset p1 = completionOffset p2 ∧ completionOffset p1 = some msg.length := by
  have hmsg : msg ≠ [] := by
    intro h; rw [h] at hlen; simp at hlen; omega
  have key : ∀ p : List Bytes, p.flatten = msg → (∀ c ∈ p, c ≠ []) →
      completionOffset p = some msg.length := by
    intro p hp hne
    have hpne : p ≠ [] := by
      rintro rfl; exact hmsg (by simpa using hp.symm)
    exact completionOffsetFrom_exact msg H ds (findIdx_of_index _ _ _ hidx) hH hmax hds hline
      huniq hlen hrange p freshExchanger [] (headInv_fresh msg H) (by simpa using hp) hne hpne
  rw [key p1 h1 hne1, key p2 h2 hne2]
  exact ⟨rfl, rfl⟩

theorem completionOffset_repartition_witness :
    completionOffset [sampleResponse] =
        completionOffset [sampleResponse.take 30, sampleResponse.drop 30] ∧
      completionOffset [sampleResponse] = some sampleResponse.length :=
  completionOffset_repartition sampleResponse 34 [53]
    [sampleResponse] [sampleResponse.take 30, sampleResponse.drop 30]
    (by decide) (by decide) (by decide) (by decide) (by decide) (by decide) (by decide)
    (by decide) (by decide) (by decide) (by decide) (by decide)

/-- C2 (as stated) fails.  The chunked response of 62 bytes completes at offset
62 when fed whole and never when cut inside its terminator (after byte 57), and
the stream `sampleResponse ++ "XX"` completes at offset 45 when fed whole and at
offset 43 when cut after the message; every chunk is non-empty. -/
theorem completionOffset_counterexample :
    ([chunkedResponse].flatten = [chunkedResponse.take 57, chunkedResponse.drop 57].flatten ∧
      completionOffset [chunkedResponse] = some 62 ∧
      completionOffset [chunkedResponse.take 57, chunkedResponse.drop 57] = none) ∧
    ([sampleResponse ++ ascii "XX"].flatten = [sampleResponse, ascii "XX"].flatten ∧
      completionOffset [sampleResponse ++ ascii "XX"] = some 45 ∧
      completionOffset [sampleResponse, ascii "XX"] = some 43) := by
  decide

theorem feed_take_succ (e : TCPExchanger4HHTTP) (c : Bytes) (cs : List Bytes) (j : Nat) :
    feed e ((c :: cs).take (j + 1)) = feed (receive e c) (cs.take j) := by
  simp [feed]

theorem sendLoop_trace (chunks : List Bytes) :
    ∀ (e : TCPExchanger4HHTTP) (dest : List (Option NetError)), (∀ w ∈ dest, w = none) →
    ∃ k, k ≤ chunks.length ∧
      (∀ j, 0 < j → j < k → isEnd (feed e (chunks.take j)) = false) ∧
      ((0 < k ∧ isEnd (feed e (chunks.take k)) = true ∧
          (sendLoop e (chunks.map readOk ++ [readEOF]) dest).unread =
            (chunks.drop k).map readOk ++ [readEOF]) ∨
        (k = chunks.length ∧ (0 < k → isEnd (feed e (chunks.take k)) = false) ∧
          (sendLoop e (chunks.map readOk ++ [readEOF]) dest).unread = [])) ∧
      (sendLoop e (chunks.map readOk ++ [readEOF]) dest).events = forwarded (chunks.take k) ∧
      (sendLoop e (chunks.map readOk ++ [readEOF]) dest).err = none ∧
      (sendLoop e (chunks.map readOk ++ [readEOF]) dest).exchanger = feed e (chunks.take k) := by
  induction chunks with
  | nil =>
    intro e dest _
    refine ⟨0, le_refl _, fun j h1 h2 => by omega, Or.inr ⟨rfl, fun h => by omega, ?_⟩, ?_, ?_, ?_⟩ <;>
      simp [sendLoop, readEOF, forwarded, feed]
  | cons c cs ih =>
    intro e dest hd
    have hhead : dest.headD none = none := by
      cases dest with
      | nil => rfl
      | cons w ws => exact hd w (List.mem_cons_self _ _)
    have htail : ∀ w ∈ dest.tail, w = none := fun w hw => hd w (List.mem_of_mem_tail hw)
    have hsrc : (c :: cs).map readOk ++ [readEOF] = readOk c :: (cs.map readOk ++ [readEOF]) := rfl
    by_cases hend : isEnd (receive e c) = true
    · have hr : sendLoop e ((c :: cs).map readOk ++ [readEOF]) dest =
          { err := none, events := [IOEvent.write c, IOEvent.receive c],
            unread := cs.map readOk ++ [readEOF], exchanger := receive e c } := by
        rw [hsrc]; simp only [sendLoop, readOk, hhead, hend, if_true, if_false, Bool.false_eq_true]
      rw [hr]
      refine ⟨1, by simp, fun j h1 h2 => by omega, Or.inl ⟨by omega, ?_, ?_⟩, ?_, rfl, ?_⟩
      · simpa [feed] using hend
      · simp
      · simp [forwarded]
      · simp [feed]
    · obtain ⟨k, hk, hlow, hcase, hev, herr, hex⟩ := ih (receive e c) dest.tail htail
      have hr : sendLoop e ((c :: cs).map readOk ++ [readEOF]) dest =
          { sendLoop (receive e c) (cs.map readOk ++ [readEOF]) dest.tail with
            events := IOEvent.write c :: IOEvent.receive c ::
              (sendLoop (receive e c) (cs.map readOk ++ [readEOF]) dest.tail).events } := by
        rw [hsrc]; simp only [sendLoop, readOk, hhead, hend, if_true, if_false, Bool.false_eq_true]
      rw [hr]
      have hfalse : isEnd (receive e c) = false := by simpa using hend
      refine ⟨k + 1, by simp; omega, ?_, ?_, ?_, herr, ?_⟩
      · intro j h1 h2
        obtain ⟨i, rfl⟩ : ∃ i, j = i + 1 := ⟨j - 1, by omega⟩
        rw [feed_take_succ]
        rcases Nat.eq_zero_or_pos i with rfl | hi
        · simpa [feed] using hfalse
        · exact hlow i hi (by omega)
      · rcases hcase with ⟨hk0, hke, hun⟩ | ⟨hkn, hke, hun⟩
        · exact Or.inl ⟨by omega, by rw [feed_take_succ]; exact hke, by simpa using hun⟩
        · refine Or.inr ⟨by simp [hkn], fun _ => ?_, hun⟩
          rw [feed_take_succ]
          rcases Nat.eq_zero_or_pos k with rfl | hk0
          · simpa [feed] using hfalse
          · exact hke hk0
      · simp only [hev, forwarded, List.take_succ_cons, List.flatMap_cons]
        rfl
      · simp only [hex, List.take_succ_cons]
        rfl

/-- C3: when `src` yields the chunks `c1..cn` and then end-of-stream and every
write to `dest` succeeds, `SendData` writes and feeds exactly the first `k`
chunks, each written once and before it is fed to the detector, where `k` is the
least index with `isEnd` true after `receive(ck)` (the later read results are
left unread), or `n` if `isEnd` is never true (everything was read); the
returned error is nil. -/
theorem sendData_forwards (e0 : TCPExchanger4HHTTP) (chunks : List Bytes)
    (dest : List (Option NetError)) (hdest : ∀ w ∈ dest, w = none) :
    ∃ k, k ≤ chunks.length ∧
      (∀ j, 0 < j → j < k → isEnd (feed freshExchanger (chunks.take j)) = false) ∧
      ((0 < k ∧ isEnd (feed freshExchanger (chunks.take k)) = true ∧
          (SendData e0 (chunks.map readOk ++ [readEOF]) dest).unread =
            (chunks.drop k).map readOk ++ [readEOF]) ∨
        (k = chunks.length ∧ (0 < k → isEnd (feed freshExchanger (chunks.take k)) = false) ∧
          (SendData e0 (chunks.map readOk ++ [readEOF]) dest).unread = [])) ∧
      (SendData e0 (chunks.map readOk ++ [readEOF]) dest).events = forwarded (chunks.take k) ∧
      (SendData e0 (chunks.map readOk ++ [readEOF]) dest).err = none := by
  obtain ⟨k, h1, h2, h3, h4, h5, _⟩ := sendLoop_trace chunks freshExchanger dest hdest
  exact ⟨k, h1, h2, h3, h4, h5⟩

theorem sendData_forwards_witness :
    ∃ k, k ≤ [getRequest, sampleResponse].length ∧
      (∀ j, 0 < j → j < k →
        isEnd (feed freshExchanger ([getRequest, sampleResponse].take j)) = false) ∧
      ((0 < k ∧ isEnd (feed freshExchanger ([getRequest, sampleResponse].take k)) = true ∧
          (SendData freshExchanger ([getRequest, sampleResponse].map readOk ++ [readEOF])
            [none]).unread = ([getRequest, sampleResponse].drop k).map readOk ++ [readEOF]) ∨
        (k = [getRequest, sampleResponse].length ∧
          (0 < k → isEnd (feed freshExchanger ([getRequest, sampleResponse].take k)) = false) ∧
          (SendData freshExchanger ([getRequest, sampleResponse].map readOk ++ [readEOF])
            [none]).unread = [])) ∧
      (SendData freshExchanger ([getRequest, sampleResponse].map readOk ++ [readEOF])
        [none]).events = forwarded ([getRequest, sampleResponse].take k) ∧
      (SendData freshExchanger ([getRequest, sampleResponse].map readOk ++ [readEOF])
        [none]).err = none :=
  sendData_forwards freshExchanger [getRequest, sampleResponse] [none] (by decide)

/-- C4 (the code at the failing input): `src` yields the request of S1 and the
write to `dest` fails with an error; `SendData` stops after that write and
returns nil, not the error of the failed write. -/
theorem sendData_write_error_dropped :
    (SendData freshExchanger [readOk getRequest, readEOF] [some (NetError.other 1)]).err = none ∧
    (SendData freshExchanger [readOk getRequest, readEOF] [some (NetError.other 1)]).events =
      [IOEvent.write getRequest] ∧
    (SendData freshExchanger [readOk getRequest, readEOF] [some (NetError.other 1)]).unread =
      [readEOF] := by
  decide

theorem findIdx_some_occ (sep : Bytes) (s : Bytes) :
    ∀ i, findIdx sep s = some i → sep <+: s.drop i := by
  induction s with
  | nil =>
    intro i h
    by_cases hs : sep = []
    · simp [hs]
    · simp [findIdx, hs] at h
  | cons c cs ih =>
    intro i h
    by_cases hp : hasPrefix (c :: cs) sep = true
    · simp only [findIdx, hp, if_true, Option.some.injEq] at h
      subst h
      exact (hasPrefix_iff _ _).1 hp
    · simp only [findIdx, hp, Bool.false_eq_true, if_false, Option.map_eq_some'] at h
      obtain ⟨j, hj, rfl⟩ := h
      simpa using ih j hj

theorem findIdx_of_occ (sep : Bytes) (s : Bytes) :
    ∀ i, sep <+: s.drop i → ∃ i0, i0 ≤ i ∧ findIdx sep s = some i0 := by
  induction s with
  | nil =>
    intro i h
    have : sep = [] := by simpa using h
    exact ⟨0, Nat.zero_le _, by simp [findIdx, this]⟩
  | cons c cs ih =>
    intro i h
    by_cases hp : hasPrefix (c :: cs) sep = true
    · exact ⟨0, Nat.zero_le _, by simp [findIdx, hp]⟩
    · cases i with
      | zero => exact absurd ((hasPrefix_iff _ _).2 (by simpa using h)) hp
      | succ i =>
        obtain ⟨i0, h1, h2⟩ := ih i (by simpa using h)
        exact ⟨i0 + 1, by omega, by simp [findIdx, hp, h2]⟩

theorem findLastIdx_some_occ (sep : Bytes) (s : Bytes) :
    ∀ j, findLastIdx sep s = some j → sep <+: s.drop j := by
  induction s with
  | nil =>
    intro j h
    by_cases hs : sep = []
    · simp [hs]
    · simp [findLastIdx, hs] at h
  | cons c cs ih =>
    intro j h
    cases hl : findLastIdx sep cs with
    | some i =>
      simp only [findLastIdx, hl, Option.some.injEq] at h
      subst h
      simpa using ih i hl
    | none =>
      by_cases hp : hasPrefix (c :: cs) sep = true
      · simp only [findLastIdx, hl, hp, if_true, Option.some.injEq] at h
        subst h
        exact (hasPrefix_iff _ _).1 hp
      · simp [findLastIdx, hl, hp] at h

theorem findLastIdx_of_occ (sep : Bytes) (hsep : sep ≠ []) (s : Bytes) :
    ∀ i, sep <+: s.drop i → ∃ j, i ≤ j ∧ findLastIdx sep s = some j := by
  induction s with
  | nil =>
    intro i h
    exact absurd (by simpa using h) hsep
  | cons c cs ih =>
    intro i h
    cases i with
    | zero =>
      cases hl : findLastIdx sep cs with
      | some j => exact ⟨j + 1, Nat.zero_le _, by simp [findLastIdx, hl]⟩
      | none =>
        have hp : hasPrefix (c :: cs) sep = true := (hasPrefix_iff _ _).2 (by simpa using h)
        exact ⟨0, le_refl _, by simp [findLastIdx, hl, hp]⟩
    | succ i =>
      obtain ⟨j, h1, h2⟩ := ih i (by simpa using h)
      exact ⟨j + 1, by omega, by simp [findLastIdx, h2]⟩

theorem occ_length (sep s : Bytes) (i : Nat) (hsep : sep ≠ []) (h : sep <+: s.drop i) :
    i + sep.length ≤ s.length := by
  have h1 := h.length_le
  have h2 := List.length_pos.2 hsep
  rw [List.length_drop] at h1
  omega

theorem occ_getElem (sep s : Bytes) (i j : Nat) (h : sep <+: s.drop i) (hj : j < sep.length) :
    s[i + j]? = sep[j]? := by
  obtain ⟨t, ht⟩ := h
  have : (s.drop i)[j]? = sep[j]? := by
    rw [← ht, List.getElem?_append_left hj]
  rw [← this, List.getElem?_drop]

theorem shiftBodyEnd_first (bt : Bytes) (b : Int) :
    shiftBodyEnd (wrap64 (0 + (bt.length : Int))) bt b = b := by
  have h : ¬ (wrap64 (0 + (bt.length : Int)) > (bt.length : Int)) := by
    unfold wrap64; omega
  unfold shiftBodyEnd
  rw [if_neg (fun hc => h hc.2)]

theorem receive_single (msg : Bytes) (H : Nat)
    (hidx : findIdx HTTPBODYSPLITTER msg = some H) (hH : 0 < H) :
    receive freshExchanger msg =
      { headerEndIndex := (H : Int),
        bodyEndIndex :=
          if isChunked (str2Headers (msg.take H)) then
            strings_Index msg HTTPTRANSFERENCODINGENDCODE
          else strings_LastIndex msg HTTPBODYSPLITTER,
        headers := str2Headers (msg.take H),
        receivedLength := wrap64 (0 + (msg.length : Int)),
        receivedByte := [] } := by
  have h1 : ((H : Int) > -1) := by omega
  have h2 : ((H : Int) > 0) := by omega
  simp only [receive, receiveHead, receiveBody, freshExchanger, le_refl, if_true, List.nil_append,
    strings_Index, hidx, h1, h2, Int.toNat_ofNat, shiftBodyEnd_first]

/-- The first `\r\n0\r\n` of a message lies behind the head terminator at `H` as
soon as none lies within the first `H + 2` bytes. -/
theorem chunkEnd_after_head (msg : Bytes) (H i0 : Nat)
    (hidx : findIdx HTTPBODYSPLITTER msg = some H)
    (hfirst : findIdx HTTPTRANSFERENCODINGENDCODE msg = some i0)
    (hhead : findIdx HTTPTRANSFERENCODINGENDCODE (msg.take (H + 2)) = none) :
    H + 2 ≤ i0 := by
  have hs := findIdx_some_occ _ _ _ hidx
  have hc := findIdx_some_occ _ _ _ hfirst
  have hlen := occ_length _ _ _ (by decide) hs
  have h4 : HTTPBODYSPLITTER.length = 4 := rfl
  have h5 : HTTPTRANSFERENCODINGENDCODE.length = 5 := rfl
  have hp := prefix_findIdx HTTPTRANSFERENCODINGENDCODE (by decide) msg (msg.take (H + 2)) i0
    hfirst (List.take_prefix _ _)
  rw [hhead, List.length_take, h5] at hp
  have hlow : ¬ (i0 + 5 ≤ min (H + 2) msg.length) := by
    intro h; rw [if_pos h] at hp; exact absurd hp (by simp)
  rw [h4] at hlen
  have hlow2 : H < i0 + 3 := by
    rw [Nat.min_eq_left (by omega)] at hlow; omega
  by_contra hcon
  have hcases : i0 + 2 = H ∨ i0 + 1 = H ∨ i0 = H ∨ i0 = H + 1 := by omega
  rcases hcases with h | h | h | h
  · have a := occ_getElem _ _ i0 2 hc (by decide)
    have b := occ_getElem _ _ H 0 hs (by decide)
    rw [h] at a; rw [Nat.add_zero] at b; rw [a] at b
    exact absurd b (by decide)
  · have a := occ_getElem _ _ i0 1 hc (by decide)
    have b := occ_getElem _ _ H 0 hs (by decide)
    rw [h] at a; rw [Nat.add_zero] at b; rw [a] at b
    exact absurd b (by decide)
  · have a := occ_getElem _ _ i0 2 hc (by decide)
    have b := occ_getElem _ _ H 2 hs (by decide)
    rw [h] at a; rw [a] at b
    exact absurd b (by decide)
  · have a := occ_getElem _ _ i0 0 hc (by decide)
    have b := occ_getElem _ _ H 1 hs (by decide)
    rw [h, Nat.add_zero] at a; rw [a] at b
    exact absurd b (by decide)

/-- C5 (amended): for a message whose first CRLFCRLF is at offset `H > 0`, whose
first `H + 2` bytes (the head and the CRLF behind it) contain no `\r\n0\r\n`,
whose head has exactly one header line named `Transfer-Encoding`, namely
`Transfer-Encoding: chunked`, and no line named `Content-Length`, delivered to
a fresh detector as one chunk: `isEnd` is true afterwards if and only if the
chunk contains `\r\n0\r\n` at an offset behind the head. -/
theorem chunked_single_chunk (msg : Bytes) (H : Nat)
    (hidx : strings_Index msg HTTPBODYSPLITTER = (H : Int)) (hH : 0 < H)
    (hhead : findIdx HTTPTRANSFERENCODINGENDCODE (msg.take (H + 2)) = none)
    (hTE : chunkedLine ∈ strings_Split (msg.take H) CRLF)
    (hTEu : ∀ l ∈ strings_Split (msg.take H) CRLF,
      hasPrefix l (HTTPHEADERTRANSFERENCODING ++ COLON) = true → l = chunkedLine)
    (hCL : ∀ l ∈ strings_Split (msg.take H) CRLF,
      hasPrefix l (HTTPHEADERCONTENTLENGTH ++ COLON) = false) :
    isEnd (feed freshExchanger [msg]) = true ↔
      ∃ i, H ≤ i ∧ hasPrefix (msg.drop i) HTTPTRANSFERENCODINGENDCODE = true := by
  have hf := findIdx_of_index _ _ _ hidx
  have hte : mapGet (str2Headers (msg.take H)) HTTPHEADERTRANSFERENCODING =
      some (32 :: CHUNKED) :=
    str2Headers_get_of_line _ _ _ (by decide) (by decide) hTE hTEu
  have hch : isChunked (str2Headers (msg.take H)) = true := by
    unfold isChunked; rw [hte]; decide
  have hcl := str2Headers_get_none _ _ hCL
  have hfeed : feed freshExchanger [msg] = receive freshExchanger msg := rfl
  have h0 : ¬ ((H : Int) ≤ 0) := by omega
  rw [hfeed, receive_single msg H hf hH, hch]
  simp only [isEnd, h0, if_false, hcl, if_true, strings_Index]
  cases hfi : findIdx HTTPTRANSFERENCODINGENDCODE msg with
  | none =>
    have hneg : ¬ ((-1 : Int) > 0) := by omega
    simp only [hneg, if_false, Bool.false_eq_true, false_iff]
    rintro ⟨i, _, hi⟩
    obtain ⟨i0, _, h2⟩ := findIdx_of_occ _ _ i ((hasPrefix_iff _ _).1 hi)
    rw [hfi] at h2; exact absurd h2 (by simp)
  | some i0 =>
    have hge := chunkEnd_after_head msg H i0 hf hfi hhead
    have h1 : ((i0 : Int) > 0) := by omega
    have h2 : ¬ ((i0 : Int) = (H : Int)) := by omega
    have h3 : ((i0 : Int) > (H : Int)) := by omega
    simp only [h1, if_true, h2, if_false, h3, decide_True, true_iff]
    exact ⟨i0, by omega, (hasPrefix_iff _ _).2 (findIdx_some_occ _ _ _ hfi)⟩

theorem chunked_single_chunk_witness :
    (isEnd (feed freshExchanger [chunkedResponse]) = true ↔
      ∃ i, 43 ≤ i ∧ hasPrefix (chunkedResponse.drop i) HTTPTRANSFERENCODINGENDCODE = true) ∧
    isEnd (feed freshExchanger [chunkedResponse]) = true :=
  ⟨chunked_single_chunk chunkedResponse 43 (by decide) (by decide) (by decide) (by decide)
    (by decide) (by decide), by decide⟩

/-- C5 (as stated) fails.  In `zeroLineResponse` the first CRLFCRLF is at offset
46, the head has no `\r\n0\r\n`, carries `Transfer-Encoding: chunked` and no
`Content-Length`, and the chunk has `\r\n0\r\n` behind the head (at offset 58), yet
`isEnd` is false: the first `\r\n0\r\n` starts at offset 43, inside the head.  In
`twoEncodingsResponse` (first CRLFCRLF at offset 68) the head carries
`Transfer-Encoding: chunked`, but the later line `Transfer-Encoding: gzip` replaced
the value, the chunked rule is not applied, and `isEnd` is false although
`\r\n0\r\n` follows the head (at offset 80). -/
theorem chunked_counterexample :
    (strings_Index zeroLineResponse HTTPBODYSPLITTER = 46 ∧
      findIdx HTTPTRANSFERENCODINGENDCODE (zeroLineResponse.take 46) = none ∧
      chunkedLine ∈ strings_Split (zeroLineResponse.take 46) CRLF ∧
      (∀ l ∈ strings_Split (zeroLineResponse.take 46) CRLF,
        hasPrefix l (HTTPHEADERCONTENTLENGTH ++ COLON) = false) ∧
      hasPrefix (zeroLineResponse.drop 58) HTTPTRANSFERENCODINGENDCODE = true ∧
      isEnd (feed freshExchanger [zeroLineResponse]) = false) ∧
    (strings_Index twoEncodingsResponse HTTPBODYSPLITTER = 68 ∧
      findIdx HTTPTRANSFERENCODINGENDCODE (twoEncodingsResponse.take 68) = none ∧
      chunkedLine ∈ strings_Split (twoEncodingsResponse.take 68) CRLF ∧
      (∀ l ∈ strings_Split (twoEncodingsResponse.take 68) CRLF,
        hasPrefix l (HTTPHEADERCONTENTLENGTH ++ COLON) = false) ∧
      hasPrefix (twoEncodingsResponse.drop 80) HTTPTRANSFERENCODINGENDCODE = true ∧
      isEnd (feed freshExchanger [twoEncodingsResponse]) = false) := by
  decide

theorem str2Headers_get_origin (head k v : Bytes)
    (h : mapGet (str2Headers head) k = some v) :
    ∃ l ∈ strings_Split head CRLF, hasPrefix l (k ++ COLON) = true ∧ headerValue l = v := by
  unfold str2Headers at h
  split at h
  · rcases headers_get_origin _ k v [] h with h1 | ⟨l, hl, hc, hn, hv⟩
    · simp [mapGet] at h1
    · exact ⟨l, hl, prefix_of_headerName l k hc hn, hv⟩
  · simp [mapGet] at h

theorem isChunked_false_of_lines (head : Bytes)
    (hTE : ∀ l ∈ strings_Split head CRLF,
      hasPrefix l (HTTPHEADERTRANSFERENCODING ++ COLON) = true →
        removeSpaces (headerValue l) ≠ CHUNKED) :
    isChunked (str2Headers head) = false := by
  unfold isChunked
  cases hg : mapGet (str2Headers head) HTTPHEADERTRANSFERENCODING with
  | none => rfl
  | some v =>
    obtain ⟨l, hl, hp, hv⟩ := str2Headers_get_origin _ _ _ hg
    have := hTE l hl hp
    rw [hv] at this
    simp [this]

theorem lastIndex_headOnly (msg : Bytes) (H : Nat)
    (hidx : findIdx HTTPBODYSPLITTER msg = some H) (hlen : msg.length = H + 4) :
    strings_LastIndex msg HTTPBODYSPLITTER = (H : Int) := by
  have hs := findIdx_some_occ _ _ _ hidx
  obtain ⟨j, hj, hlast⟩ := findLastIdx_of_occ _ (by decide) _ _ hs
  have hocc := findLastIdx_some_occ _ _ _ hlast
  have hb := occ_length _ _ _ (by decide) hocc
  have h4 : HTTPBODYSPLITTER.length = 4 := rfl
  rw [h4, hlen] at hb
  have : j = H := by omega
  unfold strings_LastIndex
  rw [hlast, this]

/-- C6: a head-only message, `H + 4` bytes with `H > 0` whose only CRLFCRLF is
its last four bytes and whose head has no line named `Content-Length` and no
line named `Transfer-Encoding` with the value `chunked`, delivered to a fresh
detector as one chunk: `receive` records `headerEndIndex = bodyEndIndex = H`
and `isEnd` is true. -/
theorem headOnly_single_chunk (msg : Bytes) (H : Nat)
    (hidx : strings_Index msg HTTPBODYSPLITTER = (H : Int)) (hH : 0 < H)
    (hlen : msg.length = H + 4)
    (hCL : ∀ l ∈ strings_Split (msg.take H) CRLF,
      hasPrefix l (HTTPHEADERCONTENTLENGTH ++ COLON) = false)
    (hTE : ∀ l ∈ strings_Split (msg.take H) CRLF,
      hasPrefix l (HTTPHEADERTRANSFERENCODING ++ COLON) = true →
        removeSpaces (headerValue l) ≠ CHUNKED) :
    (receive freshExchanger msg).headerEndIndex = (H : Int) ∧
    (receive freshExchanger msg).bodyEndIndex = (H : Int) ∧
    isEnd (receive freshExchanger msg) = true := by
  have hf := findIdx_of_index _ _ _ hidx
  have hcl := str2Headers_get_none _ _ hCL
  have hch := isChunked_false_of_lines _ hTE
  have hlast := lastIndex_headOnly msg H hf hlen
  have h0 : ¬ ((H : Int) ≤ 0) := by omega
  have h1 : ((H : Int) > 0) := by omega
  have hl : ((msg.length : Int)) = (H : Int) + 4 := by rw [hlen]; simp
  rw [receive_single msg H hf hH, hch]
  simp only [Bool.false_eq_true, if_false, hlast, isEnd, h0, hcl, h1, if_true, hl, Int.zero_add,
    decide_True, and_self]

theorem headOnly_single_chunk_witness :
    (receive freshExchanger getRequest).headerEndIndex = ((23 : Nat) : Int) ∧
    (receive freshExchanger getRequest).bodyEndIndex = ((23 : Nat) : Int) ∧
    isEnd (receive freshExchanger getRequest) = true :=
  headOnly_single_chunk getRequest 23 (by decide) (by decide) (by decide) (by decide) (by decide)

/-- C7: once the head is parsed (`headerEndIndex > 0`), a stored `Content-Length`
value that, spaces removed, `strconv.ParseInt(·, 10, 64)` rejects makes `isEnd`
true, whatever `receivedLength` and `bodyEndIndex` are. -/
theorem isEnd_malformed_contentLength (e : TCPExchanger4HHTTP) (val : Bytes)
    (hhead : e.headerEndIndex > 0)
    (hval : mapGet e.headers HTTPHEADERCONTENTLENGTH = some val)
    (hbad : strconv_ParseInt (removeSpaces val) = none) :
    isEnd e = true := by
  have h0 : ¬ (e.headerEndIndex ≤ 0) := by omega
  simp only [isEnd, h0, if_false, hval, hbad]

theorem isEnd_malformed_contentLength_witness :
    isEnd { headerEndIndex := 17, bodyEndIndex := -1,
            headers := [(HTTPHEADERCONTENTLENGTH, ascii " 12a")],
            receivedLength := 21, receivedByte := [] } = true :=
  isEnd_malformed_contentLength _ (ascii " 12a") (by decide) (by decide) (by decide)

theorem mem_mapDelete {κ α : Type} [DecidableEq κ] (m : List (κ × α)) (k : κ) (p : κ × α) :
    p ∈ mapDelete m k ↔ p ∈ m ∧ p.1 ≠ k := by
  simp [mapDelete]

theorem mapGet_none_of_keys {κ α : Type} [DecidableEq κ] (m : List (κ × α)) (k : κ)
    (h : ∀ p ∈ m, p.1 ≠ k) : mapGet m k = none := by
  induction m with
  | nil => rfl
  | cons p m ih =>
    obtain ⟨a, b⟩ := p
    have h1 : ¬ a = k := h (a, b) (List.mem_cons_self _ _)
    simp only [mapGet, h1, if_false]
    exact ih (fun q hq => h q (List.mem_cons_of_mem _ hq))

theorem getConnLoop_sub (io : TCPConn → Option NetError × ReadResult) (iter : Pool) :
    ∀ conns : Pool, ∀ p ∈ (getConnLoop io iter conns).2, p ∈ conns := by
  induction iter with
  | nil => intro conns p hp; exact hp
  | cons q rest ih =>
    intro conns p hp
    obtain ⟨key, conn⟩ := q
    simp only [getConnLoop] at hp
    split at hp
    · exact ((mem_mapDelete _ _ _).1 (ih _ p hp)).1
    · split at hp
      · exact ((mem_mapDelete _ _ _).1 (ih _ p hp)).1
      · exact ((mem_mapDelete _ _ _).1 hp).1

theorem getConnLoop_some (io : TCPConn → Option NetError × ReadResult) (c : TCPConn)
    (iter : Pool) : ∀ conns : Pool, (getConnLoop io iter conns).1 = some c →
      ∃ key, (key, c) ∈ iter ∧ ∀ p ∈ (getConnLoop io iter conns).2, p.1 ≠ key := by
  induction iter with
  | nil => intro conns h; simp [getConnLoop] at h
  | cons q rest ih =>
    intro conns h
    obtain ⟨key, conn⟩ := q
    cases hw : (io conn).1 with
    | some err =>
      simp only [getConnLoop, hw] at h ⊢
      obtain ⟨k, hk, hp⟩ := ih _ h
      exact ⟨k, List.mem_cons_of_mem _ hk, hp⟩
    | none =>
      by_cases hcmd : (getCMD (io conn).2).length = 0
      · simp only [getConnLoop, hw, hcmd, if_true] at h ⊢
        obtain ⟨k, hk, hp⟩ := ih _ h
        exact ⟨k, List.mem_cons_of_mem _ hk, hp⟩
      · simp only [getConnLoop, hw, hcmd, if_false, Option.some.injEq] at h ⊢
        subst h
        exact ⟨key, List.mem_cons_self _ _, fun p hp => ((mem_mapDelete _ _ _).1 hp).2⟩

theorem pool_of_some (s : TCPTunnelService) (entries : Pool) :
    ({ s with conns := some entries } : TCPTunnelService).pool = entries := rfl

theorem getConn_some (io : TCPConn → Option NetError × ReadResult) (s : TCPTunnelService)
    (c : TCPConn) (h : (GetConn io s).1 = some c) :
    (∃ key, (key, c) ∈ s.pool ∧ (∀ p ∈ (GetConn io s).2.pool, p.1 ≠ key)) ∧
    (GetConn io s).2.conns ≠ none := by
  unfold GetConn at h ⊢
  by_cases hl : s.pool.length > 0
  · simp only [hl, if_true] at h ⊢
    exact ⟨getConnLoop_some io c _ _ h, by simp⟩
  · simp [hl] at h

theorem getConn_sub (io : TCPConn → Option NetError × ReadResult) (s : TCPTunnelService) :
    ∀ p ∈ (GetConn io s).2.pool, p ∈ s.pool := by
  unfold GetConn
  by_cases hl : s.pool.length > 0
  · simp only [hl, if_true]
    exact getConnLoop_sub io _ _
  · simp only [hl, if_false]
    exact fun p hp => hp

theorem getConn_made (io : TCPConn → Option NetError × ReadResult) (s : TCPTunnelService)
    (h : s.conns ≠ none) : (GetConn io s).2.conns ≠ none := by
  unfold GetConn
  by_cases hl : s.pool.length > 0
  · simp [hl]
  · simpa [hl] using h

theorem assignConn_made (s : TCPTunnelService) (conn : TCPConn) (h : s.conns ≠ none) :
    ∃ s1, assignConn s conn = some s1 ∧ s1.conns ≠ none ∧
      ∀ p ∈ s1.pool, p = (conn.remoteAddr, conn) ∨ p ∈ s.pool := by
  cases hc : s.conns with
  | none => exact absurd hc h
  | some entries =>
    refine ⟨{ s with conns := some (mapSet entries conn.remoteAddr conn) }, ?_, by simp, ?_⟩
    · simp [assignConn, hc]
    · intro p hp
      rw [pool_of_some] at hp
      rcases List.mem_cons.1 hp with h1 | h2
      · exact Or.inl h1
      · right
        have : s.pool = entries := by simp [TCPTunnelService.pool, hc]
        rw [this]
        exact ((mem_mapDelete _ _ _).1 h2).1

/-- From a state with a created pool that holds no entry for the socket `c`,
an operation that does not hand `c` in does not panic and leads to such a
state again. -/
theorem applyOp_absent (c : TCPConn) (s : TCPTunnelService) (op : ServiceOp)
    (hop : ServiceOp.handsIn c op = false) (hmade : s.conns ≠ none)
    (habs : ∀ p ∈ s.pool, p.2 ≠ c) :
    ∃ s1, applyOp s op = some s1 ∧ s1.conns ≠ none ∧ ∀ p ∈ s1.pool, p.2 ≠ c := by
  cases op with
  | accept conn r =>
    have hne : conn ≠ c := by simpa [ServiceOp.handsIn] using hop
    simp only [applyOp, acceptStep]
    split
    · exact ⟨s, rfl, hmade, habs⟩
    · split
      · exact ⟨_, rfl, by simp [clearConn], by simp [clearConn, TCPTunnelService.pool]⟩
      · split
        · obtain ⟨s1, h1, h2, h3⟩ := assignConn_made s conn hmade
          refine ⟨s1, h1, h2, ?_⟩
          intro p hp
          rcases h3 p hp with rfl | h4
          · exact hne
          · exact habs p h4
        · exact ⟨_, rfl, hmade, habs⟩
  | getConn io =>
    exact ⟨_, rfl, getConn_made io s hmade, fun p hp => habs p (getConn_sub io s p hp)⟩
  | relaseConn conn r =>
    have hne : conn ≠ c := by simpa [ServiceOp.handsIn] using hop
    simp only [applyOp, RelaseConn]
    split
    · obtain ⟨s1, h1, h2, h3⟩ := assignConn_made s conn hmade
      refine ⟨s1, h1, h2, ?_⟩
      intro p hp
      rcases h3 p hp with rfl | h4
      · exact hne
      · exact habs p h4
    · exact ⟨s, rfl, hmade, habs⟩
  | heartbeatFail key val =>
    cases hc : s.conns with
    | none => exact absurd hc hmade
    | some entries =>
      refine ⟨_, rfl, by simp [heartbeatDrop, hc], ?_⟩
      intro p hp
      have hpool : s.pool = entries := by simp [TCPTunnelService.pool, hc]
      simp only [heartbeatDrop, hc, Option.map_some', TCPTunnelService.pool,
        Option.getD_some] at hp
      exact habs p (by rw [hpool]; exact ((mem_mapDelete _ _ _).1 hp).1)
  | ctrlExit =>
    exact ⟨_, rfl, by simp [ctrlAdapterExit, clearConn],
      by simp [ctrlAdapterExit, clearConn, TCPTunnelService.pool]⟩

theorem runOps_absent (c : TCPConn) (ops : List ServiceOp) :
    ∀ s : TCPTunnelService, (∀ op ∈ ops, ServiceOp.handsIn c op = false) →
      s.conns ≠ none → (∀ p ∈ s.pool, p.2 ≠ c) →
      ∃ s1, runOps s ops = some s1 ∧ ∀ p ∈ s1.pool, p.2 ≠ c := by
  induction ops with
  | nil => intro s _ _ h; exact ⟨s, rfl, h⟩
  | cons op ops ih =>
    intro s hops hmade habs
    obtain ⟨s1, h1, h2, h3⟩ :=
      applyOp_absent c s op (hops op (List.mem_cons_self _ _)) hmade habs
    obtain ⟨s2, h4, h5⟩ := ih s1 (fun o ho => hops o (List.mem_cons_of_mem _ ho)) h2 h3
    exact ⟨s2, by simp only [runOps, h1, h4], h5⟩

/-- C8: in the sequential model of the idle pool, when `GetConn` returns a
connection `c`, the key of `c` (its remote address) is no longer in the pool
afterwards and no entry holds `c`; so after any operations of the service that
do not hand `c` back (no `RelaseConn` of `c`, no accept of `c`), none of which
panics, a later `GetConn` returns a connection different from `c` or none. -/
theorem getConn_exclusive (io : TCPConn → Option NetError × ReadResult)
    (s : TCPTunnelService) (c : TCPConn) (hkeys : WellKeyed s.pool)
    (hget : (GetConn io s).1 = some c) :
    mapGet (GetConn io s).2.pool c.remoteAddr = none ∧
    (∀ p ∈ (GetConn io s).2.pool, p.2 ≠ c) ∧
    ∀ (ops : List ServiceOp) (io2 : TCPConn → Option NetError × ReadResult),
      (∀ op ∈ ops, ServiceOp.handsIn c op = false) →
      ∃ s1, runOps (GetConn io s).2 ops = some s1 ∧ (GetConn io2 s1).1 ≠ some c := by
  obtain ⟨⟨key, hmem, hgone⟩, hmade⟩ := getConn_some io s c hget
  have hkey : key = c.remoteAddr := hkeys _ hmem
  have habs : ∀ p ∈ (GetConn io s).2.pool, p.2 ≠ c := by
    intro p hp hpc
    have h1 := hkeys p (getConn_sub io s p hp)
    exact hgone p hp (by rw [h1, hpc, hkey])
  refine ⟨mapGet_none_of_keys _ _ (fun p hp => hkey ▸ hgone p hp), habs, ?_⟩
  intro ops io2 hops
  obtain ⟨s1, hrun, habs1⟩ := runOps_absent c ops _ hops hmade habs
  refine ⟨s1, hrun, ?_⟩
  intro hsec
  obtain ⟨⟨k2, hmem2, _⟩, _⟩ := getConn_some io2 s1 c hsec
  exact habs1 _ hmem2 rfl

theorem getConn_exclusive_witness :
    mapGet (GetConn allAnswer sampleService).2.pool connA.remoteAddr = none ∧
    (∀ p ∈ (GetConn allAnswer sampleService).2.pool, p.2 ≠ connA) ∧
    ∀ (ops : List ServiceOp) (io2 : TCPConn → Option NetError × ReadResult),
      (∀ op ∈ ops, ServiceOp.handsIn connA op = false) →
      ∃ s1, runOps (GetConn allAnswer sampleService).2 ops = some s1 ∧
        (GetConn io2 s1).1 ≠ some connA :=
  getConn_exclusive allAnswer sampleService connA (by decide) (by decide)

/-- C9 (amended): in a service whose idle pool has been created (`conns` is
not the nil map), `RelaseConn(c)` stores `c` in the pool under its remote
address when the one command read from `c` equals `\r- reset -\n`; for every
other command, in every state, it leaves the service as it is. -/
theorem relaseConn_reset_only (s : TCPTunnelService) (conn : TCPConn) (r : ReadResult) :
    (∀ entries : Pool, s.conns = some entries → getCMD r = CMDRESET →
      RelaseConn s conn r =
        some { s with conns := some (mapSet entries conn.remoteAddr conn) } ∧
      mapGet (mapSet entries conn.remoteAddr conn) conn.remoteAddr = some conn) ∧
    (getCMD r ≠ CMDRESET → RelaseConn s conn r = some s) := by
  constructor
  · intro entries hmade h
    refine ⟨by simp [RelaseConn, h, assignConn, hmade], ?_⟩
    simp [mapGet_mapSet]
  · intro h
    simp [RelaseConn, h]

theorem relaseConn_reset_only_witness :
    (RelaseConn sampleService connNew { data := CMDRESET, err := none } =
        some { sampleService with
          conns := some (mapSet [(connA.remoteAddr, connA), (connB.remoteAddr, connB)]
            connNew.remoteAddr connNew) } ∧
      mapGet (mapSet [(connA.remoteAddr, connA), (connB.remoteAddr, connB)]
        connNew.remoteAddr connNew) connNew.remoteAddr = some connNew) ∧
    RelaseConn sampleService connNew { data := [], err := some (NetError.other 1) } =
      some sampleService ∧
    RelaseConn sampleService connNew { data := CMDRESET ++ ascii "x", err := none } =
      some sampleService :=
  ⟨(relaseConn_reset_only sampleService connNew { data := CMDRESET, err := none }).1
      [(connA.remoteAddr, connA), (connB.remoteAddr, connB)] rfl (by decide),
   (relaseConn_reset_only sampleService connNew
      { data := [], err := some (NetError.other 1) }).2 (by decide),
   (relaseConn_reset_only sampleService connNew
      { data := CMDRESET ++ ascii "x", err := none }).2 (by decide)⟩

/-- C9 (as stated) fails.  In `emptyService`, the state from `DoStart` until the
first CONNECTCTRL, `conns` is the nil map; `RelaseConn` of `connNew` reads
`\r- reset -\n` and the assignment to the pool panics: nothing is inserted. -/
theorem relaseConn_nil_pool_counterexample :
    emptyService.conns = none ∧
    getCMD { data := CMDRESET, err := none } = CMDRESET ∧
    RelaseConn emptyService connNew { data := CMDRESET, err := none } = none := by
  decide

/-- With a control socket registered, the accept step for a socket whose first
command is CONNECTCTRL makes it the control socket, closes every idle
connection, empties the pool and starts a control adapter. -/
theorem accept_second_control (s : TCPTunnelService) (conn : TCPConn) (r : ReadResult)
    (hctl : s.ctlConn ≠ none) (hcmd : getCMD r = CMDCONNECTCTRL) :
    acceptStep s conn r =
      some { conns := some [], ctlConn := some conn,
             closed := s.closed ++ s.pool.map Prod.snd, adapters := s.adapters + 1 } := by
  simp [acceptStep, hctl, hcmd, clearConn, TCPTunnelService.pool]

/-- C10 (the code at the failing input): `sampleService` has the control socket
`connCtl` registered and two idle connections.  After the accept step for
`connNew` with the command CONNECTCTRL the control socket is `connNew`, the
pool is empty, both idle connections were closed and a second adapter was
started; `connNew` is not dropped, and `Close` was not called on `connCtl`. -/
theorem accept_second_control_replaces :
    sampleService.ctlConn = some connCtl ∧
    getCMD { data := CMDCONNECTCTRL, err := none } = CMDCONNECTCTRL ∧
    acceptStep sampleService connNew { data := CMDCONNECTCTRL, err := none } =
      some { conns := some [], ctlConn := some connNew, closed := [connA, connB],
             adapters := 2 } ∧
    some connNew ≠ sampleService.ctlConn ∧
    (some [] : Option Pool) ≠ sampleService.conns ∧
    connCtl ∉ [connA, connB] ∧ connNew ∉ [connA, connB] := by
  decide

/-- With a registered control socket, an accepted socket whose first command is
neither CONNECTCTRL nor CONNECT is closed, and the control socket, the pool and
the adapters stay as they are. -/
theorem accept_unknown_with_control (s : TCPTunnelService) (conn : TCPConn) (r : ReadResult)
    (hctl : s.ctlConn ≠ none) (h1 : getCMD r ≠ CMDCONNECTCTRL) (h2 : getCMD r ≠ CMDCONNECT) :
    acceptStep s conn r = some { s with closed := s.closed ++ [conn] } := by
  simp [acceptStep, hctl, h1, h2]

/-- Without a control socket, an accepted socket whose first command is not
CONNECTCTRL is skipped: the state, with its record of closed sockets, is
unchanged. -/
theorem accept_skipped_without_control (s : TCPTunnelService) (conn : TCPConn) (r : ReadResult)
    (hctl : s.ctlConn = none) (h1 : getCMD r ≠ CMDCONNECTCTRL) :
    acceptStep s conn r = some s := by
  have h : CMDCONNECTCTRL ≠ getCMD r := fun h => h1 h.symm
  simp [acceptStep, hctl, h]

/-- C11 (the code at the failing input): no control socket is registered and the
accepted socket `connNew` sends `hello\n`, which is neither CONNECTCTRL nor
CONNECT.  The accept step leaves the service as it is and `Close` is not called
on `connNew`; with the control socket of `sampleService` registered the same
socket is closed. -/
theorem accept_unknown_not_closed :
    getCMD { data := ascii "hello\n", err := none } ≠ CMDCONNECTCTRL ∧
    getCMD { data := ascii "hello\n", err := none } ≠ CMDCONNECT ∧
    acceptStep emptyService connNew { data := ascii "hello\n", err := none } =
      some emptyService ∧
    connNew ∉ emptyService.closed ∧
    acceptStep sampleService connNew { data := ascii "hello\n", err := none } =
      some { sampleService with closed := [connNew] } := by
  decide

/-- C12 (the code at the failing input): for the head `GET / HTTP/1.1`,
`Host: x:80`, `str2Headers` stores under `Host` the text between the first and
the second `:`, ` x`, not the text ` x:80` behind the first `:`. -/
theorem str2Headers_value_cut :
    str2Headers (ascii "GET / HTTP/1.1\r\nHost: x:80") = [(ascii "Host", ascii " x")] ∧
    mapGet (str2Headers (ascii "GET / HTTP/1.1\r\nHost: x:80")) (ascii "Host") =
      some (ascii " x") ∧
    mapGet (str2Headers (ascii "GET / HTTP/1.1\r\nHost: x:80")) (ascii "Host") ≠
      some (ascii " x:80") := by
  decide

/-- C14 (the code at the failing input): the chunked response of S2 is fed as
`chunkedFirst` (53 bytes, head known afterwards with `headerEndIndex = 43`) and
`chunkedSecond` (9 bytes), in which `\r\n0\r\n` is at chunk-relative offset 2.
`receive` records `bodyEndIndex = 62 + 2 = 64`, the byte count that already
includes the second chunk plus the offset, not `53 + 2 = 55`.  When the response
is cut at byte 55 instead, the terminator is at chunk-relative offset 0 and
`receive` records `bodyEndIndex = 0`, not `55`. -/
theorem bodyEnd_shift_includes_chunk :
    (feed freshExchanger [chunkedFirst]).headerEndIndex = 43 ∧
    (feed freshExchanger [chunkedFirst]).receivedLength = 53 ∧
    strings_Index chunkedSecond HTTPTRANSFERENCODINGENDCODE = 2 ∧
    (feed freshExchanger [chunkedFirst, chunkedSecond]).bodyEndIndex = 64 ∧
    (feed freshExchanger [chunkedFirst, chunkedSecond]).bodyEndIndex ≠ 53 + 2 ∧
    (strings_Index (chunkedResponse.drop 55) HTTPTRANSFERENCODINGENDCODE = 0 ∧
      (feed freshExchanger [chunkedResponse.take 55, chunkedResponse.drop 55]).bodyEndIndex = 0) := by
  decide

theorem findIdx_replicate (sep : Bytes) (a b : Nat) (hab : a ≠ b) (n : Nat) :
    findIdx (b :: sep) (List.replicate n a) = none := by
  induction n with
  | zero => simp [findIdx]
  | succ n ih =>
    rw [List.replicate_succ]
    simp [findIdx, hasPrefix, hab, ih]

theorem findLastIdx_replicate (sep : Bytes) (a b : Nat) (hab : a ≠ b) (n : Nat) :
    findLastIdx (b :: sep) (List.replicate n a) = none := by
  induction n with
  | zero => simp [findLastIdx]
  | succ n ih =>
    rw [List.replicate_succ]
    simp [findLastIdx, hasPrefix, hab, ih]

theorem receive_found_any (e : TCPExchanger4HHTTP) (bt : Bytes) (H : Nat)
    (h0 : e.headerEndIndex ≤ 0)
    (hf : findIdx HTTPBODYSPLITTER (e.receivedByte ++ bt) = some H) :
    (receive e bt).headerEndIndex = (H : Int) ∧
    (receive e bt).headers = str2Headers ((e.receivedByte ++ bt).take H) ∧
    (receive e bt).receivedByte = [] := by
  have h1 : ((H : Int) > -1) := by omega
  simp only [receive, receiveHead, receiveBody, strings_Index, h0, hf, if_true, h1,
    Int.toNat_ofNat]
  split <;> simp

/-- The receive call that finds the scratch buffer at or above the limit
without a head terminator: the buffer is discarded, `headerEndIndex` is `-1`,
the headers are untouched. -/
theorem receive_overflow (e : TCPExchanger4HHTTP) (bt : Bytes) (h0 : e.headerEndIndex ≤ 0)
    (hf : findIdx HTTPBODYSPLITTER (e.receivedByte ++ bt) = none)
    (hl : HTTPHEADERMAXLENGTH ≤ (e.receivedByte ++ bt).length) :
    (receive e bt).receivedByte = [] ∧ (receive e bt).headerEndIndex = -1 ∧
    (receive e bt).headers = e.headers := by
  simp only [receive, receiveHead, receiveBody, strings_Index, h0, hf, if_true, ge_iff_le, hl]
  simp

/-- After the discard the next receive call buffers and searches again. -/
theorem receive_after_overflow (e : TCPExchanger4HHTTP) (bt : Bytes) (h0 : e.headerEndIndex ≤ 0)
    (hf : findIdx HTTPBODYSPLITTER (e.receivedByte ++ bt) = none)
    (hl : HTTPHEADERMAXLENGTH ≤ (e.receivedByte ++ bt).length) (bt2 : Bytes) :
    (∀ j, findIdx HTTPBODYSPLITTER bt2 = some j →
      (receive (receive e bt) bt2).headerEndIndex = (j : Int) ∧
      (receive (receive e bt) bt2).headers = str2Headers (bt2.take j) ∧
      (receive (receive e bt) bt2).receivedByte = []) ∧
    (findIdx HTTPBODYSPLITTER bt2 = none → bt2.length < HTTPHEADERMAXLENGTH →
      (receive (receive e bt) bt2).headerEndIndex = -1 ∧
      (receive (receive e bt) bt2).receivedByte = bt2) := by
  obtain ⟨hb, hh, _⟩ := receive_overflow e bt h0 hf hl
  have h1 : (receive e bt).headerEndIndex ≤ 0 := by rw [hh]; omega
  constructor
  · intro j hj
    have := receive_found_any (receive e bt) bt2 j h1 (by rw [hb]; exact hj)
    rw [hb] at this
    exact this
  · intro hn hlt
    have := receive_notFound (receive e bt) bt2 h1 (by rw [hb]; exact hn) (by rw [hb]; exact hlt)
    rw [this, hb]
    exact ⟨rfl, rfl⟩

/-- C13 (amended): the receive call that finds the scratch buffer at or above
the header-scan limit (2 MiB) with no CRLFCRLF in it leaves `receivedByte`
empty, `headerEndIndex = -1` and the headers as they were; the next receive
call starts a new scratch buffer with its chunk and searches it for CRLFCRLF:
when it is found at offset `j`, `headerEndIndex` is set to `j`, the head before
it is parsed into `headers` and the buffer is emptied, and when it is not found
and the chunk is shorter than the limit, `receivedByte` holds the chunk. -/
theorem overflow_then_rebuffer (e : TCPExchanger4HHTTP) (bt : Bytes)
    (h0 : e.headerEndIndex ≤ 0)
    (hf : findIdx HTTPBODYSPLITTER (e.receivedByte ++ bt) = none)
    (hl : HTTPHEADERMAXLENGTH ≤ (e.receivedByte ++ bt).length) :
    ((receive e bt).receivedByte = [] ∧ (receive e bt).headerEndIndex = -1 ∧
      (receive e bt).headers = e.headers) ∧
    ∀ bt2 : Bytes,
      (∀ j, findIdx HTTPBODYSPLITTER bt2 = some j →
        (receive (receive e bt) bt2).headerEndIndex = (j : Int) ∧
        (receive (receive e bt) bt2).headers = str2Headers (bt2.take j) ∧
        (receive (receive e bt) bt2).receivedByte = []) ∧
      (findIdx HTTPBODYSPLITTER bt2 = none → bt2.length < HTTPHEADERMAXLENGTH →
        (receive (receive e bt) bt2).headerEndIndex = -1 ∧
        (receive (receive e bt) bt2).receivedByte = bt2) :=
  ⟨receive_overflow e bt h0 hf hl, fun bt2 => receive_after_overflow e bt h0 hf hl bt2⟩

theorem feed_one (e : TCPExchanger4HHTTP) (a : Bytes) : feed e [a] = receive e a := rfl

theorem feed_two (e : TCPExchanger4HHTTP) (a b : Bytes) :
    feed e [a, b] = receive (receive e a) b := rfl

theorem overflowChunk_no_head :
    findIdx HTTPBODYSPLITTER (freshExchanger.receivedByte ++ overflowChunk) = none :=
  findIdx_replicate [10, 13, 10] 65 13 (by decide) HTTPHEADERMAXLENGTH

theorem overflowChunk_length :
    HTTPHEADERMAXLENGTH ≤ (freshExchanger.receivedByte ++ overflowChunk).length := by
  show HTTPHEADERMAXLENGTH ≤ (List.replicate HTTPHEADERMAXLENGTH 65).length
  rw [List.length_replicate]

theorem overflow_then_rebuffer_witness :
    ((receive freshExchanger overflowChunk).receivedByte = [] ∧
      (receive freshExchanger overflowChunk).headerEndIndex = -1 ∧
      (receive freshExchanger overflowChunk).headers = freshExchanger.headers) ∧
    ∀ bt2 : Bytes,
      (∀ j, findIdx HTTPBODYSPLITTER bt2 = some j →
        (receive (receive freshExchanger overflowChunk) bt2).headerEndIndex = (j : Int) ∧
        (receive (receive freshExchanger overflowChunk) bt2).headers =
          str2Headers (bt2.take j) ∧
        (receive (receive freshExchanger overflowChunk) bt2).receivedByte = []) ∧
      (findIdx HTTPBODYSPLITTER bt2 = none → bt2.length < HTTPHEADERMAXLENGTH →
        (receive (receive freshExchanger overflowChunk) bt2).headerEndIndex = -1 ∧
        (receive (receive freshExchanger overflowChunk) bt2).receivedByte = bt2) :=
  overflow_then_rebuffer freshExchanger overflowChunk (by decide) overflowChunk_no_head
    overflowChunk_length

/-- C13 (as stated) fails.  The first chunk, `overflowChunk`, fills the scratch
buffer to the limit without a CRLFCRLF and is discarded.  When the next chunk is
the request of S1, `receive` finds its head: `headerEndIndex = 23` and the
header `Host` is stored.  When the next chunk is `abc`, `receivedByte` holds
`abc` afterwards. -/
theorem overflow_counterexample :
    HTTPHEADERMAXLENGTH ≤ overflowChunk.length ∧
    findIdx HTTPBODYSPLITTER overflowChunk = none ∧
    (feed freshExchanger [overflowChunk]).receivedByte = [] ∧
    (feed freshExchanger [overflowChunk, getRequest]).headerEndIndex = 23 ∧
    (feed freshExchanger [overflowChunk, getRequest]).headers =
      [(ascii "Host", ascii " x")] ∧
    (feed freshExchanger [overflowChunk, ascii "abc"]).receivedByte = ascii "abc" := by
  have h0 : freshExchanger.headerEndIndex ≤ 0 := by decide
  have ha := receive_overflow freshExchanger overflowChunk h0 overflowChunk_no_head
    overflowChunk_length
  have hb := receive_after_overflow freshExchanger overflowChunk h0 overflowChunk_no_head
    overflowChunk_length
  have hreq : findIdx HTTPBODYSPLITTER getRequest = some 23 := by decide
  have habc : findIdx HTTPBODYSPLITTER (ascii "abc") = none := by decide
  have hhd : str2Headers (getRequest.take 23) = [(ascii "Host", ascii " x")] := by decide
  have hlt : (ascii "abc").length < HTTPHEADERMAXLENGTH :=
    Nat.lt_of_lt_of_le (by decide : (ascii "abc").length < 4)
      (by unfold HTTPHEADERMAXLENGTH; omega)
  rw [feed_one, feed_two, feed_two]
  refine ⟨overflowChunk_length, overflowChunk_no_head, ha.1, ?_, ?_, ?_⟩
  · exact ((hb getRequest).1 23 hreq).1
  · exact ((hb getRequest).1 23 hreq).2.1.trans hhd
  · exact ((hb (ascii "abc")).2 habc hlt).2

theorem occ_of_infix (sep s : Bytes) (h : sep <:+: s) : ∃ i, sep <+: s.drop i := by
  obtain ⟨a, b, rfl⟩ := h
  refine ⟨a.length, b, ?_⟩
  rw [List.append_assoc, List.drop_left]

theorem findIdx_none_of_infix (sep s t : Bytes) (h : findIdx sep s = none) (ht : t <:+: s) :
    findIdx sep t = none := by
  cases hf : findIdx sep t with
  | none => rfl
  | some i =>
    exfalso
    have h1 : sep <+: t.drop i := findIdx_some_occ sep t i hf
    have h2 : sep <:+: t := h1.isInfix.trans (List.drop_suffix i t).isInfix
    obtain ⟨j, hj⟩ := occ_of_infix sep s (h2.trans ht)
    obtain ⟨i0, _, h3⟩ := findIdx_of_occ sep s j hj
    rw [h] at h3
    exact absurd h3 (by simp)

theorem isEnd_no_head (e : TCPExchanger4HHTTP) (h : e.headerEndIndex ≤ 0) : isEnd e = false := by
  simp [isEnd, h]

theorem noHead_receive (stream : Bytes) (hs : findIdx HTTPBODYSPLITTER stream = none)
    (e : TCPExchanger4HHTTP) (P c : Bytes) (h0 : e.headerEndIndex ≤ 0)
    (hbuf : e.receivedByte <:+ P) (hP : P ++ c <+: stream) :
    (receive e c).headerEndIndex ≤ 0 ∧ (receive e c).receivedByte <:+ P ++ c := by
  have hsuf : e.receivedByte ++ c <:+ P ++ c := by
    obtain ⟨a, rfl⟩ := hbuf
    exact ⟨a, by rw [List.append_assoc]⟩
  have hf : findIdx HTTPBODYSPLITTER (e.receivedByte ++ c) = none :=
    findIdx_none_of_infix _ _ _ hs (hsuf.isInfix.trans hP.isInfix)
  by_cases hl : HTTPHEADERMAXLENGTH ≤ (e.receivedByte ++ c).length
  · obtain ⟨a1, a2, _⟩ := receive_overflow e c h0 hf hl
    rw [a1, a2]
    exact ⟨by omega, List.nil_suffix⟩
  · rw [receive_notFound e c h0 hf (by omega)]
    exact ⟨by simp, hsuf⟩

theorem noHead_feed (stream : Bytes) (hs : findIdx HTTPBODYSPLITTER stream = none)
    (cs : List Bytes) : ∀ (e : TCPExchanger4HHTTP) (P : Bytes), e.headerEndIndex ≤ 0 →
      e.receivedByte <:+ P → P ++ cs.flatten <+: stream → (feed e cs).headerEndIndex ≤ 0 := by
  induction cs with
  | nil => intro e P h0 _ _; exact h0
  | cons c cs ih =>
    intro e P h0 hbuf hP
    have hP2 : (P ++ c) ++ cs.flatten <+: stream := by simpa [List.append_assoc] using hP
    obtain ⟨a1, a2⟩ := noHead_receive stream hs e P c h0 hbuf ((List.prefix_append _ _).trans hP2)
    exact ih (receive e c) (P ++ c) a1 a2 hP2

/-- C15: when the concatenation of the chunks fed to a fresh detector contains
no CRLFCRLF, `isEnd` is false after every chunk, whatever the overflow fallback
recorded; hence `SendData` on such a stream, when no read or write fails, stops
only at end-of-stream, having written and fed every chunk. -/
theorem no_head_never_complete (chunks : List Bytes)
    (hs : findIdx HTTPBODYSPLITTER chunks.flatten = none) :
    (∀ k, isEnd (feed freshExchanger (chunks.take k)) = false) ∧
    ∀ (e0 : TCPExchanger4HHTTP) (dest : List (Option NetError)), (∀ w ∈ dest, w = none) →
      (SendData e0 (chunks.map readOk ++ [readEOF]) dest).events = forwarded chunks ∧
      (SendData e0 (chunks.map readOk ++ [readEOF]) dest).unread = [] ∧
      (SendData e0 (chunks.map readOk ++ [readEOF]) dest).err = none := by
  have hall : ∀ k, isEnd (feed freshExchanger (chunks.take k)) = false := by
    intro k
    apply isEnd_no_head
    exact noHead_feed chunks.flatten hs (chunks.take k) freshExchanger [] (by decide)
      (List.nil_suffix) (by simpa using prefix_flatten_take chunks k)
  refine ⟨hall, ?_⟩
  intro e0 dest hdest
  obtain ⟨k, _, _, hcase, hev, herr, _⟩ := sendLoop_trace chunks freshExchanger dest hdest
  rcases hcase with ⟨_, hend, _⟩ | ⟨hk, _, hun⟩
  · rw [hall k] at hend
    exact absurd hend (by simp)
  · refine ⟨?_, hun, herr⟩
    show (sendLoop freshExchanger (chunks.map readOk ++ [readEOF]) dest).events = forwarded chunks
    rw [hev, hk, List.take_length]

theorem findIdx_replicate_append (sep : Bytes) (a b : Nat) (hab : a ≠ b) (t : Bytes) (n : Nat) :
    findIdx (b :: sep) (List.replicate n a ++ t) = (findIdx (b :: sep) t).map (· + n) := by
  induction n with
  | zero => simp
  | succ n ih =>
    rw [List.replicate_succ, List.cons_append]
    simp only [findIdx, hasPrefix, hab, decide_False, Bool.false_and, Bool.false_eq_true, if_false,
      ih, Option.map_map]
    congr 1

theorem receive_fresh_overflow_bodyEnd (bt : Bytes) (i : Nat)
    (hf : findIdx HTTPBODYSPLITTER bt = none) (hl : HTTPHEADERMAXLENGTH ≤ bt.length)
    (hi : findIdx HTTPTRANSFERENCODINGENDCODE bt = some i) :
    (receive freshExchanger bt).headerEndIndex = -1 ∧
    (receive freshExchanger bt).bodyEndIndex = (i : Int) := by
  have h1 : ¬ ((i : Int) < 0) := by omega
  simp only [receive, receiveHead, receiveBody, freshExchanger, le_refl, if_true, List.nil_append,
    strings_Index, hf, ge_iff_le, hl, hi, h1, if_false, shiftBodyEnd_first]
  simp

theorem overflowWithTerminator_no_head :
    findIdx HTTPBODYSPLITTER [overflowWithTerminator].flatten = none := by
  simp only [List.flatten_cons, List.flatten_nil, List.append_nil]
  unfold overflowWithTerminator overflowChunk HTTPBODYSPLITTER
  rw [findIdx_replicate_append [10, 13, 10] 65 13 (by decide)]
  have : findIdx [13, 10, 13, 10] HTTPTRANSFERENCODINGENDCODE = none := by decide
  rw [this]; rfl

theorem overflowWithTerminator_recorded :
    (receive freshExchanger overflowWithTerminator).headerEndIndex = -1 ∧
    (receive freshExchanger overflowWithTerminator).bodyEndIndex =
      (HTTPHEADERMAXLENGTH : Int) := by
  apply receive_fresh_overflow_bodyEnd
  · have := overflowWithTerminator_no_head
    simpa only [List.flatten_cons, List.flatten_nil, List.append_nil] using this
  · unfold overflowWithTerminator overflowChunk
    rw [List.length_append, List.length_replicate]
    omega
  · unfold overflowWithTerminator overflowChunk HTTPTRANSFERENCODINGENDCODE
    rw [findIdx_replicate_append [10, 48, 13, 10] 65 13 (by decide)]
    have : findIdx [13, 10, 48, 13, 10] [13, 10, 48, 13, 10] = some 0 := by decide
    rw [this]; simp

theorem no_head_never_complete_witness :
    ((∀ k, isEnd (feed freshExchanger ([overflowWithTerminator].take k)) = false) ∧
      ∀ (e0 : TCPExchanger4HHTTP) (dest : List (Option NetError)), (∀ w ∈ dest, w = none) →
        (SendData e0 ([overflowWithTerminator].map readOk ++ [readEOF]) dest).events =
          forwarded [overflowWithTerminator] ∧
        (SendData e0 ([overflowWithTerminator].map readOk ++ [readEOF]) dest).unread = [] ∧
        (SendData e0 ([overflowWithTerminator].map readOk ++ [readEOF]) dest).err = none) ∧
    (receive freshExchanger overflowWithTerminator).bodyEndIndex = (HTTPHEADERMAXLENGTH : Int) :=
  ⟨no_head_never_complete [overflowWithTerminator] overflowWithTerminator_no_head,
   overflowWithTerminator_recorded.2⟩

end GoTCPTunnel
